import Mathlib

/-!
# k8s-s2s-auth: bearer-token extraction and the three authentication middlewares

A shallow embedding of `http.go`, `jwt.go`, `kube.go` and `oidc.go`.

* A Go `string` that is indexed or sliced by bytes is a `GoString`, a list of bytes.
  Texts that are only concatenated and compared with `""` (error messages, subjects,
  audiences) are Lean `String`s.
* Library functions the handlers call are either transcribed (`utf8.DecodeRuneInString`,
  `unicode.SimpleFold` on ASCII, `strings.EqualFold`, `Header.Get`, `context.WithValue`,
  `time.Unix`, `Time.Add`, `Time.Before`, `Time.After`, `jwt.Claims.Validate`) or, where
  they are cryptography or network calls, taken as
  fields of the configuration (`jwt.ParseSigned`, `JSONWebToken.Claims`,
  `TokenReviewInterface.Create`, `IDTokenVerifier.Verify`, `pem.Decode`).
* A handler is a function from the request to the list of effects it performs, in order.
-/

namespace K8sS2SAuth

/-- A Go string: a sequence of bytes (`len` is `List.length`, `s[:n]` is `take`, `s[n:]` is `drop`). -/
abbrev GoString := List UInt8

/-! ## unicode/utf8 -/

namespace utf8

/-- The constant `utf8.RuneError`, U+FFFD. -/
def RuneError : Nat := 0xFFFD

/-- The constant `utf8.RuneSelf`: bytes below it are single-byte runes. -/
def RuneSelf : Nat := 0x80

/-- The table `first` of package utf8, information about the first byte of an encoding:
`as = 0xF0` (ASCII), `xx = 0xF1` (invalid), otherwise accept-range index in the high
nibble and size in the low one. -/
def first (s0 : Nat) : Nat :=
  if s0 < 0x80 then 0xF0          -- as
  else if s0 < 0xC2 then 0xF1     -- xx
  else if s0 < 0xE0 then 0x02     -- s1
  else if s0 = 0xE0 then 0x13     -- s2
  else if s0 < 0xED then 0x03     -- s3
  else if s0 = 0xED then 0x23     -- s4
  else if s0 < 0xF0 then 0x03     -- s3
  else if s0 = 0xF0 then 0x34     -- s5
  else if s0 < 0xF4 then 0x04     -- s6
  else if s0 = 0xF4 then 0x44     -- s7
  else 0xF1                       -- xx

/-- The table `acceptRanges` of package utf8: the (lo, hi) range of the second byte. -/
def acceptRanges (i : Nat) : Nat × Nat :=
  match i with
  | 0 => (0x80, 0xBF)
  | 1 => (0xA0, 0xBF)
  | 2 => (0x80, 0x9F)
  | 3 => (0x90, 0xBF)
  | 4 => (0x80, 0x8F)
  | _ => (0, 0)

/-- Byte `i` of `s` as a number (only used below a length check). -/
def byteAt (s : GoString) (i : Nat) : Nat := (s.getD i 0).toNat

/-- Transcription of `utf8.DecodeRuneInString`: the first rune of `s` and its width in bytes;
`(RuneError, 0)` on the empty string and `(RuneError, 1)` on an invalid encoding. -/
def DecodeRuneInString (s : GoString) : Nat × Nat :=
  let n := s.length
  if n < 1 then (RuneError, 0)
  else
    let s0 := byteAt s 0
    let x := first s0
    if x ≥ 0xF0 then
      (if x = 0xF0 then s0 else RuneError, 1)
    else
      let sz := x &&& 7
      let accept := acceptRanges (x >>> 4)
      if n < sz then (RuneError, 1)
      else
        let s1 := byteAt s 1
        if s1 < accept.1 ∨ accept.2 < s1 then (RuneError, 1)
        else if sz ≤ 2 then (((s0 &&& 0x1F) <<< 6) ||| (s1 &&& 0x3F), 2)
        else
          let s2 := byteAt s 2
          if s2 < 0x80 ∨ 0xBF < s2 then (RuneError, 1)
          else if sz ≤ 3 then
            (((s0 &&& 0x0F) <<< 12) ||| ((s1 &&& 0x3F) <<< 6) ||| (s2 &&& 0x3F), 3)
          else
            let s3 := byteAt s 3
            if s3 < 0x80 ∨ 0xBF < s3 then (RuneError, 1)
            else
              (((s0 &&& 0x07) <<< 18) ||| ((s1 &&& 0x3F) <<< 12) ||| ((s2 &&& 0x3F) <<< 6)
                ||| (s3 &&& 0x3F), 4)

end utf8

/-! ## unicode -/

namespace unicode

/-- The constant `unicode.MaxRune`. -/
def MaxRune : Nat := 0x10FFFF

/-- The table `asciiFold` of package unicode (128 entries): upper-case letters go to lower
case, lower-case letters to upper case, except `k`, which goes to the Kelvin sign U+212A,
and `s`, which goes to the long s U+017F; every other entry is the identity. -/
def asciiFold (r : Nat) : Nat :=
  if 0x41 ≤ r ∧ r ≤ 0x5A then r + 0x20
  else if r = 0x6B then 0x212A
  else if r = 0x73 then 0x017F
  else if 0x61 ≤ r ∧ r ≤ 0x7A then r - 0x20
  else r

/-- The part of the Unicode case tables (`caseOrbit`, `CaseRanges`) that is not written out
here: what `SimpleFold` returns on a rune that is not ASCII. -/
structure CaseTables where
  /-- The value of `SimpleFold` on runes from 128 on. -/
  foldHigh : Nat → Nat

/-- Transcription of `unicode.SimpleFold`: ASCII runes are looked up in `asciiFold`, the
others in the case tables. -/
def SimpleFold (T : CaseTables) (r : Nat) : Nat :=
  if r > MaxRune then r
  else if r < 128 then asciiFold r
  else T.foldHigh r

end unicode

/-! ## strings -/

namespace strings

/-- The extraction of the first rune in `EqualFold`: `(rune, rest of the string)`. -/
def nextRune (s : GoString) : Nat × GoString :=
  if utf8.byteAt s 0 < utf8.RuneSelf then (utf8.byteAt s 0, s.drop 1)
  else
    let d := utf8.DecodeRuneInString s
    (d.1, s.drop d.2)

/-- The inner loop of `EqualFold`, `for r != sr && r < tr { r = unicode.SimpleFold(r) }`;
the result is the final `r`, or `none` when the fuel is used up. -/
def foldLoop (T : unicode.CaseTables) (sr tr : Nat) : Nat → Nat → Option Nat
  | 0, r => if r ≠ sr ∧ r < tr then none else some r
  | fuel + 1, r =>
    if r ≠ sr ∧ r < tr then foldLoop T sr tr fuel (unicode.SimpleFold T r) else some r

/-- Transcription of `strings.EqualFold` (the single-loop form of the Go releases the
repository was written for; later releases put an ASCII fast path in front of the same
loop): equality of `s` and `t`, read as UTF-8, under simple Unicode case folding. Every
turn of the loop uses one unit of fuel; `none` when the fuel is used up. -/
def EqualFold (T : unicode.CaseTables) : Nat → GoString → GoString → Option Bool
  | 0, _, _ => none
  | fuel + 1, s, t =>
    if s ≠ [] ∧ t ≠ [] then
      let sr := (nextRune s).1
      let s' := (nextRune s).2
      let tr := (nextRune t).1
      let t' := (nextRune t).2
      if tr = sr then EqualFold T fuel s' t'
      else
        -- make sr < tr
        let lo := if tr < sr then tr else sr
        let hi := if tr < sr then sr else tr
        if hi < utf8.RuneSelf then
          if 0x41 ≤ lo ∧ lo ≤ 0x5A ∧ hi = lo + 0x61 - 0x41 then EqualFold T fuel s' t'
          else some false
        else
          match foldLoop T lo hi fuel (unicode.SimpleFold T lo) with
          | none => none
          | some r => if r = hi then EqualFold T fuel s' t' else some false
    else some (decide (s = t))

end strings

/-! ## net/http and context -/

namespace context

/-- A value stored in a context (`interface{}`): a string, or something else. -/
inductive Value where
  | str (s : String)
  | other
  deriving DecidableEq

/-- A context, as the chain of its key/value pairs, innermost first. -/
abbrev Context := List (String × Value)

/-- The function `context.WithValue(parent, key, val)`. -/
def WithValue (parent : Context) (key : String) (val : Value) : Context :=
  (key, val) :: parent

/-- The method `ctx.Value(key)`: the innermost value stored under `key`. -/
def Context.Value (ctx : Context) (key : String) : Option Value :=
  ctx.lookup key

end context

namespace http

/-- The type `http.Header`, a map from canonical header names to their values. -/
abbrev Header := List (String × List GoString)

/-- The method `Header.Get(key)` for a key in canonical form: the first value stored under
the key, `""` when there is none. -/
def Header.Get (h : Header) (key : String) : GoString :=
  match h.lookup key with
  | some (v :: _) => v
  | _ => []

/-- The fields of `http.Request` the handlers read. -/
structure Request where
  /-- The header map of the request. -/
  Header : Header
  /-- The context of the request, `r.Context()`. -/
  ctx : context.Context
  deriving DecidableEq

/-- The method `r.WithContext(ctx)`. -/
def Request.WithContext (r : Request) (ctx : context.Context) : Request :=
  { r with ctx := ctx }

/-- The function `http.StatusText` on the two codes the handlers use. -/
def StatusText (code : Nat) : String :=
  match code with
  | 401 => "Unauthorized"
  | 500 => "Internal Server Error"
  | _ => ""

end http

/-! ## http.go -/

/-- The string `"Bearer "`, the local `prefix` of `getToken`. -/
def bearerPfx : GoString := [66, 101, 97, 114, 101, 114, 32]

/-- Embedding of `getToken` (http.go:22-29); `none` only when `EqualFold` runs out of fuel. -/
def getToken (T : unicode.CaseTables) (fuel : Nat) (r : http.Request) : Option GoString :=
  let authHeader := r.Header.Get "Authorization"
  if authHeader.length < bearerPfx.length then some []
  else
    match strings.EqualFold T fuel (authHeader.take bearerPfx.length) bearerPfx with
    | none => none
    | some eq => if !eq then some [] else some (authHeader.drop bearerPfx.length)

/-! ## Effects of a handler -/

/-- The logger a message is printed to: `cfg.log`, the package-level `log`, or the logger
`l` of `greetHandler`. -/
inductive Logger where
  | cfg
  | std
  | l
  deriving DecidableEq

namespace authv1

/-- The fields of `authv1.TokenReviewSpec` the handler sets. -/
structure TokenReviewSpec where
  /-- The token under review. -/
  Token : GoString
  /-- The audiences the token must be valid for. -/
  Audiences : List String
  deriving DecidableEq

/-- The field of `authv1.UserInfo` the handler reads. -/
structure UserInfo where
  /-- The name of the authenticated user. -/
  Username : String
  deriving DecidableEq

/-- The fields of `authv1.TokenReviewStatus` the handler reads. -/
structure TokenReviewStatus where
  /-- Whether the token was authenticated. -/
  Authenticated : Bool
  /-- The user the token belongs to. -/
  User : UserInfo
  /-- Why the token was not authenticated. -/
  Error : String
  deriving DecidableEq

/-- The type `authv1.TokenReview`. -/
structure TokenReview where
  /-- The request part. -/
  Spec : TokenReviewSpec
  /-- The reply part, zero in a request. -/
  Status : TokenReviewStatus
  deriving DecidableEq

end authv1

/-! ## time -/

namespace time

/-- The value of an `int64` computation whose exact result is `x`: two's-complement
wrap-around. -/
def wrap64 (x : Int) : Int :=
  (x + 9223372036854775808) % 18446744073709551616 - 9223372036854775808

/-- An instant as the wall-clock comparisons of package time see it: `sec` is `t.sec()`,
the seconds since January 1, year 1, an `int64`; `nsec` is `t.nsec()`, in `[0, 999999999]`.
The monotonic reading of an instant is left out: it is ignored whenever one of the two
instants compared has none, which is the case for every instant built by `time.Unix`. -/
structure Time where
  /-- Seconds since January 1, year 1 00:00:00 UTC. -/
  sec : Int
  /-- Nanoseconds within the second. -/
  nsec : Int
  deriving DecidableEq

/-- The constant `unixToInternal`: the seconds from year 1 to the Unix epoch. -/
def unixToInternal : Int := 62135596800

/-- Transcription of `time.Unix(sec, nsec)`; the additions are `int64` additions. -/
def Unix (sec nsec : Int) : Time :=
  if nsec < 0 ∨ nsec ≥ 1000000000 then
    let n := nsec.tdiv 1000000000
    let sec₁ := wrap64 (sec + n)
    let nsec₁ := nsec - n * 1000000000
    if nsec₁ < 0 then
      { sec := wrap64 (wrap64 (sec₁ - 1) + unixToInternal), nsec := nsec₁ + 1000000000 }
    else { sec := wrap64 (sec₁ + unixToInternal), nsec := nsec₁ }
  else { sec := wrap64 (sec + unixToInternal), nsec := nsec }

/-- Transcription of `addSec` on the seconds of an instant: `int64` addition, saturating
at overflow. (On an instant with a monotonic reading the seconds are kept in a 33-bit field
and moved to the `int64` when the sum leaves it; the sum then cannot overflow and the
seconds of the result are the same.) -/
def addSec (ext d : Int) : Int :=
  let sum := wrap64 (ext + d)
  if decide (sum > ext) = decide (d > 0) then sum
  else if d > 0 then 9223372036854775807
  else -9223372036854775807

/-- Transcription of `Time.Add(d)` for a duration `d` in nanoseconds; `/` and `%` of Go
truncate towards zero. -/
def Time.Add (t : Time) (d : Int) : Time :=
  let dsec := d.tdiv 1000000000
  let nsec := t.nsec + d.tmod 1000000000
  if nsec ≥ 1000000000 then { sec := addSec t.sec (dsec + 1), nsec := nsec - 1000000000 }
  else if nsec < 0 then { sec := addSec t.sec (dsec - 1), nsec := nsec + 1000000000 }
  else { sec := addSec t.sec dsec, nsec := nsec }

/-- Transcription of `Time.Before(u)`, wall-clock branch. -/
def Time.Before (t u : Time) : Bool :=
  decide (t.sec < u.sec ∨ (t.sec = u.sec ∧ t.nsec < u.nsec))

/-- Transcription of `Time.After(u)`, wall-clock branch. -/
def Time.After (t u : Time) : Bool :=
  decide (t.sec > u.sec ∨ (t.sec = u.sec ∧ t.nsec > u.nsec))

/-- Transcription of `Time.IsZero()`. -/
def Time.IsZero (t : Time) : Bool :=
  decide (t.sec = 0 ∧ t.nsec = 0)

end time

namespace jwt

/-- The type `jwt.Claims`; a `*NumericDate` is an optional number of seconds since the Unix
epoch, an `int64`. -/
structure Claims where
  /-- The claim `iss`. -/
  Issuer : String
  /-- The claim `sub`. -/
  Subject : String
  /-- The claim `aud`. -/
  Audience : List String
  /-- The claim `exp`. -/
  Expiry : Option Int
  /-- The claim `nbf`. -/
  NotBefore : Option Int
  /-- The claim `iat`. -/
  IssuedAt : Option Int
  /-- The claim `jti`. -/
  ID : String
  deriving DecidableEq

/-- The type `jwt.Expected`. -/
structure Expected where
  /-- Expected issuer, unchecked when empty. -/
  Issuer : String
  /-- Expected subject, unchecked when empty. -/
  Subject : String
  /-- Expected audiences, unchecked when empty. -/
  Audience : List String
  /-- Expected token id, unchecked when empty. -/
  ID : String
  /-- The time the claims are checked at, unchecked when zero. -/
  Time : time.Time
  deriving DecidableEq

end jwt

/-- A call from a middleware to its verification backend, with the arguments passed. -/
inductive Call where
  | tokenReviewCreate (ctx : context.Context) (tokenReview : authv1.TokenReview)
  | parseSigned (rawToken : GoString)
  | tokenClaims
  | claimsValidate (claims : jwt.Claims) (expected : jwt.Expected)
  | verify (ctx : context.Context) (rawToken : GoString)
  deriving DecidableEq

/-- One effect of a handler. `ρ` is the type of what the wrapped handler does when it is
served a request. -/
inductive Effect (ρ : Type) where
  /-- A call of `Print` or `Printf` on a logger, with the formatted message. -/
  | logPrint (logger : Logger) (msg : String)
  /-- A call `fmt.Fprintf(w, ...)`, with the formatted text. -/
  | write (text : String)
  /-- A call `http.Error(w, error, code)`. -/
  | httpError (error : String) (code : Nat)
  /-- A call to the verification backend. -/
  | backend (call : Call)
  /-- A call `next.ServeHTTP(w, r)`, with what the wrapped handler does on `r`. -/
  | serveHTTP (r : http.Request) (served : ρ)
  deriving DecidableEq

/-- The error responses of a trace: the arguments of its `http.Error` calls. -/
def responses {ρ : Type} : List (Effect ρ) → List (String × Nat)
  | [] => []
  | .httpError e c :: tr => (e, c) :: responses tr
  | _ :: tr => responses tr

/-- The backend calls of a trace. -/
def backendCalls {ρ : Type} : List (Effect ρ) → List Call
  | [] => []
  | .backend c :: tr => c :: backendCalls tr
  | _ :: tr => backendCalls tr

/-- The invocations of the wrapped handler in a trace: the request it was served. -/
def nextCalls {ρ : Type} : List (Effect ρ) → List http.Request
  | [] => []
  | .serveHTTP r _ :: tr => r :: nextCalls tr
  | _ :: tr => nextCalls tr

/-- What the wrapped handler did, for each of its invocations in a trace. -/
def served {ρ : Type} : List (Effect ρ) → List ρ
  | [] => []
  | .serveHTTP _ x :: tr => x :: served tr
  | _ :: tr => served tr

/-! ## http.go, continued -/

/-- Embedding of `greetHandler` (http.go:10-20). The type assertion
`r.Context().Value("subject").(string)` yields `""` when the value is absent or not a string. -/
def greetHandler {ρ : Type} (r : http.Request) : List (Effect ρ) :=
  let subject :=
    match r.ctx.Value "subject" with
    | some (.str s) => s
    | _ => ""
  if subject = "" then [.write "no subject"]
  else [.logPrint .l ("got request from " ++ subject), .write ("hello " ++ subject)]

/-! ## kube.go -/

/-- The method of `authv1int.TokenReviewInterface` the handler calls; the options argument
is always empty. An error is given by its message. -/
structure TokenReviewInterface where
  /-- The method `Create(ctx, tokenReview, opts)`. -/
  Create : context.Context → authv1.TokenReview → Except String authv1.TokenReview

/-- The type `TokenReviewConfig` (its field `log` is not used by `TokenReviewAuth`). -/
structure TokenReviewConfig where
  /-- The token review client. -/
  tokenReviewer : TokenReviewInterface
  /-- The audiences sent with every review. -/
  audiences : List String

/-- The literal `&authv1.TokenReview{Spec: authv1.TokenReviewSpec{Token: rawToken,
Audiences: cfg.audiences}}` of `TokenReviewAuth` (kube.go:46-51); its status is zero. -/
def newTokenReview (rawToken : GoString) (audiences : List String) : authv1.TokenReview :=
  { Spec := { Token := rawToken, Audiences := audiences },
    Status := { Authenticated := false, User := { Username := "" }, Error := "" } }

/-- Embedding of `TokenReviewAuth` (kube.go:38-68). -/
def TokenReviewAuth {ρ : Type} (T : unicode.CaseTables) (fuel : Nat) (cfg : TokenReviewConfig)
    (next : http.Request → ρ) (r : http.Request) : Option (List (Effect ρ)) :=
  match getToken T fuel r with
  | none => none
  | some rawToken =>
    if rawToken = [] then
      some [.logPrint .std "no token",
        .httpError (http.StatusText 401 ++ ": could not read token") 401]
    else
      let tokenReview := newTokenReview rawToken cfg.audiences
      some (.backend (.tokenReviewCreate r.ctx tokenReview) ::
        match cfg.tokenReviewer.Create r.ctx tokenReview with
        | .error err =>
          [.logPrint .std ("token review failed:" ++ err),
            .httpError (http.StatusText 500 ++ ": " ++ err) 500]
        | .ok tokenReview =>
          if !tokenReview.Status.Authenticated then
            [.logPrint .std ("token is not authenticated:" ++ tokenReview.Status.Error),
              .httpError (http.StatusText 401 ++ ": " ++ tokenReview.Status.Error) 401]
          else
            let ctx := context.WithValue r.ctx "subject" (.str tokenReview.Status.User.Username)
            [.serveHTTP (r.WithContext ctx) (next (r.WithContext ctx))])

/-! ## oidc.go -/

/-- The field of `oidc.IDToken` the handler reads. -/
structure IDToken where
  /-- The claim `sub` of the verified token. -/
  Subject : String
  deriving DecidableEq

/-- The method of `oidc.IDTokenVerifier` the handler calls. An error is given by its
message. -/
structure IDTokenVerifier where
  /-- The method `Verify(ctx, rawIDToken)`. -/
  Verify : context.Context → GoString → Except String IDToken

/-- The type `OIDCDiscoveryConfig`. -/
structure OIDCDiscoveryConfig where
  /-- The verifier built from the provider found at start-up. -/
  verifier : IDTokenVerifier

/-- Embedding of `OIDCDiscoveryAuth` (oidc.go:16-33). -/
def OIDCDiscoveryAuth {ρ : Type} (T : unicode.CaseTables) (fuel : Nat)
    (cfg : OIDCDiscoveryConfig) (next : http.Request → ρ) (r : http.Request) :
    Option (List (Effect ρ)) :=
  match getToken T fuel r with
  | none => none
  | some rawToken =>
    if rawToken = [] then
      some [.logPrint .cfg "no token found in request",
        .httpError (http.StatusText 401 ++ ": no token") 401]
    else
      some (.backend (.verify r.ctx rawToken) ::
        match cfg.verifier.Verify r.ctx rawToken with
        | .error err =>
          [.logPrint .cfg ("token verification failed:" ++ err),
            .httpError (http.StatusText 401 ++ ": " ++ err) 401]
        | .ok token =>
          let ctx := context.WithValue r.ctx "subject" (.str token.Subject)
          [.serveHTTP (r.WithContext ctx) (next (r.WithContext ctx))])

/-! ## gopkg.in/square/go-jose.v2/jwt: validation of claims -/

namespace jwt

/-- The constant `jwt.DefaultLeeway`, one minute, a `time.Duration` in nanoseconds. -/
def DefaultLeeway : Int := 60 * 1000000000

/-- The method `NumericDate.Time()` on a date that is present: `time.Unix(int64(*n), 0)`. -/
def NumericDate.Time (n : Int) : time.Time := time.Unix n 0

/-- The message of `jwt.ErrInvalidIssuer`. -/
def ErrInvalidIssuer : String :=
  "square/go-jose/jwt: validation failed, invalid issuer claim (iss)"

/-- The message of `jwt.ErrInvalidSubject`. -/
def ErrInvalidSubject : String :=
  "square/go-jose/jwt: validation failed, invalid subject claim (sub)"

/-- The message of `jwt.ErrInvalidAudience`. -/
def ErrInvalidAudience : String :=
  "square/go-jose/jwt: validation failed, invalid audience claim (aud)"

/-- The message of `jwt.ErrInvalidID`. -/
def ErrInvalidID : String :=
  "square/go-jose/jwt: validation failed, invalid ID claim (jti)"

/-- The message of `jwt.ErrNotValidYet`. -/
def ErrNotValidYet : String :=
  "square/go-jose/jwt: validation failed, token not valid yet (nbf)"

/-- The message of `jwt.ErrExpired`. -/
def ErrExpired : String :=
  "square/go-jose/jwt: validation failed, token is expired (exp)"

/-- The message of `jwt.ErrIssuedInTheFuture`. -/
def ErrIssuedInTheFuture : String :=
  "square/go-jose/jwt: validation field, token issued in the future (iat)"

/-- The method `Audience.Contains(v)`. -/
def Audience.Contains (s : List String) (v : String) : Bool :=
  match s with
  | [] => false
  | a :: rest => if a = v then true else Audience.Contains rest v

/-- The loop `for _, v := range e.Audience { if !c.Audience.Contains(v) { return ... } }`:
whether some expected audience is missing from the claims. -/
def audienceMissing (claimed : List String) : List String → Bool
  | [] => false
  | v :: rest => if !Audience.Contains claimed v then true else audienceMissing claimed rest

/-- The test `d != nil && t.Before(d.Time())` on an optional date `d`. -/
def beforeDate (t : time.Time) (d : Option Int) : Bool :=
  match d with
  | some n => t.Before (NumericDate.Time n)
  | none => false

/-- The test `d != nil && t.After(d.Time())` on an optional date `d`. -/
def afterDate (t : time.Time) (d : Option Int) : Bool :=
  match d with
  | some n => t.After (NumericDate.Time n)
  | none => false

/-- Transcription of `Claims.ValidateWithLeeway` of go-jose v2
(gopkg.in/square/go-jose.v2/jwt/validation.go), the library `jwt.go` calls; the result is
the error returned, `none` for `nil`. -/
def Claims.ValidateWithLeeway (c : Claims) (e : Expected) (leeway : Int) : Option String :=
  if e.Issuer ≠ "" ∧ e.Issuer ≠ c.Issuer then some ErrInvalidIssuer
  else if e.Subject ≠ "" ∧ e.Subject ≠ c.Subject then some ErrInvalidSubject
  else if e.ID ≠ "" ∧ e.ID ≠ c.ID then some ErrInvalidID
  else if e.Audience.length ≠ 0 ∧ audienceMissing c.Audience e.Audience = true then
    some ErrInvalidAudience
  else if e.Time.IsZero = false then
    if beforeDate (e.Time.Add leeway) c.NotBefore = true then some ErrNotValidYet
    else if afterDate (e.Time.Add (-leeway)) c.Expiry = true then some ErrExpired
    else if beforeDate (e.Time.Add leeway) c.IssuedAt = true then some ErrIssuedInTheFuture
    else none
  else none

/-- Transcription of `Claims.Validate` of go-jose v2: validation with the default leeway. -/
def Claims.Validate (c : Claims) (e : Expected) : Option String :=
  c.ValidateWithLeeway e DefaultLeeway

end jwt

/-! ## jwt.go -/

/-- The functions of go-jose the handler calls. `τ` is the type of a parsed token
(`*jwt.JSONWebToken`), `κ` the type of a public key. An error is given by its message. -/
structure JoseLib (τ κ : Type) where
  /-- The function `jwt.ParseSigned(s)`. -/
  ParseSigned : GoString → Except String τ
  /-- The method `token.Claims(key, &claims)`: signature check and decoding of the claims. -/
  Claims : τ → κ → Except String jwt.Claims
  /-- The method `claims.Validate(expected)`; the result is the error, `none` for `nil`. -/
  Validate : jwt.Claims → jwt.Expected → Option String

/-- The type `JWTPubKeyConfig` (without its logger). -/
structure JWTPubKeyConfig (κ : Type) where
  /-- The key the signatures are checked with. -/
  pubKey : κ
  /-- The audience tokens must carry, `""` for none. -/
  audience : String

/-- The value of `expected` built by `JWTPubKeyAuth` (jwt.go:44-49) at time `now`. -/
def expectedAt (audience : String) (now : time.Time) : jwt.Expected :=
  let expected : jwt.Expected := { Issuer := "", Subject := "", Audience := [], ID := "", Time := now }
  if audience ≠ "" then { expected with Audience := [audience] } else expected

/-- Embedding of `JWTPubKeyAuth` (jwt.go:21-61); `now` is the value of `time.Now()`. -/
def JWTPubKeyAuth {ρ τ κ : Type} (T : unicode.CaseTables) (fuel : Nat) (lib : JoseLib τ κ)
    (now : time.Time) (cfg : JWTPubKeyConfig κ) (next : http.Request → ρ) (r : http.Request) :
    Option (List (Effect ρ)) :=
  match getToken T fuel r with
  | none => none
  | some rawToken =>
    if rawToken = [] then
      some [.logPrint .cfg "no token found in request",
        .httpError (http.StatusText 401 ++ ": no token") 401]
    else
      some (.backend (.parseSigned rawToken) ::
        match lib.ParseSigned rawToken with
        | .error err =>
          [.logPrint .cfg ("failed to parse token:" ++ err),
            .httpError (http.StatusText 401 ++ ": " ++ err) 401]
        | .ok token =>
          .backend .tokenClaims ::
          match lib.Claims token cfg.pubKey with
          | .error err =>
            [.logPrint .cfg ("failed to verify token:" ++ err),
              .httpError (http.StatusText 401 ++ ": " ++ err) 401]
          | .ok claims =>
            let expected := expectedAt cfg.audience now
            .backend (.claimsValidate claims expected) ::
            match lib.Validate claims expected with
            | some err =>
              [.logPrint .cfg ("could not validate token:" ++ err),
                .httpError (http.StatusText 401 ++ ": " ++ err) 401]
            | none =>
              let ctx := context.WithValue r.ctx "subject" (.str claims.Subject)
              [.serveHTTP (r.WithContext ctx) (next (r.WithContext ctx))])

/-- How a Go function with results `(value, error)` ends: with a value, with an error, or
in a run-time panic. -/
inductive Result (α : Type) where
  | ok (v : α)
  | err (e : String)
  | panic (msg : String)
  deriving DecidableEq

namespace pem

/-- The byte string `"-----BEGIN "`, `pemStart[1:]`. -/
def pemStartTail : GoString := [45, 45, 45, 45, 45, 66, 69, 71, 73, 78, 32]

/-- The byte string `"\n-----BEGIN "`, `pemStart`. -/
def pemStart : GoString := 10 :: pemStartTail

/-- The start of `pem.Decode`: when the data neither begins with `"-----BEGIN "` nor
contains `"\n-----BEGIN "`, the block returned is `nil`; otherwise the block, if any, is
what the rest of the function (`decodeFrom`, not written out) finds. -/
def Decode (decodeFrom : GoString → Option GoString) (data : GoString) : Option GoString :=
  if pemStartTail.isPrefixOf data then decodeFrom data
  else if decide (pemStart <:+: data) then decodeFrom data
  else none

end pem

/-- The library functions `loadPubKey` calls. `κ` is the type of a public key. -/
structure KeyLib (κ : Type) where
  /-- The function `ioutil.ReadFile(file)`. -/
  ReadFile : String → Except String GoString
  /-- The part of `pem.Decode` after a PEM start marker has been found: the field `Bytes`
  of the block decoded, if there is one. -/
  decodeFrom : GoString → Option GoString
  /-- The function `x509.ParsePKIXPublicKey(derBytes)`. -/
  ParsePKIXPublicKey : GoString → Except String κ

/-- Embedding of `loadPubKey` (jwt.go:63-70). `block.Bytes` on a `nil` block is a run-time
panic. -/
def loadPubKey {κ : Type} (lib : KeyLib κ) (file : String) : Result κ :=
  match lib.ReadFile file with
  | .error err => .err err
  | .ok content =>
    match pem.Decode lib.decodeFrom content with
    | none => .panic "invalid memory address or nil pointer dereference"
    | some bytes =>
      match lib.ParsePKIXPublicKey bytes with
      | .error err => .err err
      | .ok key => .ok key

/-! ## Specification-side definitions -/

/-- The lower-case form of an ASCII letter; every other byte value is unchanged. -/
def lowerASCII (b : Nat) : Nat := if 0x41 ≤ b ∧ b ≤ 0x5A then b + 0x20 else b

/-- Two byte strings are equal ignoring letter case: equal after lower-casing each byte. -/
def equalIgnoringCase (s t : GoString) : Bool :=
  decide (s.map (fun b => lowerASCII b.toNat) = t.map (fun b => lowerASCII b.toNat))

/-- The header value starts with `"Bearer "`, ignoring letter case. -/
def hasBearerPfx (authHeader : GoString) : Prop :=
  7 ≤ authHeader.length ∧ equalIgnoringCase (authHeader.take 7) bearerPfx = true

instance (authHeader : GoString) : Decidable (hasBearerPfx authHeader) := by
  unfold hasBearerPfx; infer_instance

/-- The token the specification describes for an Authorization header value: the value
without its first 7 bytes when it starts with `"Bearer "` ignoring letter case, else `""`. -/
def bearerToken (authHeader : GoString) : GoString :=
  if hasBearerPfx authHeader then
    authHeader.drop 7
  else []

/-- An ASCII rune whose case-folding orbit stays inside ASCII: not one of `K k S s`. -/
def asciiSafe (c : Nat) : Prop :=
  c < 128 ∧ c ≠ 0x4B ∧ c ≠ 0x6B ∧ c ≠ 0x53 ∧ c ≠ 0x73

/-- The instant `now` has its nanoseconds in range and its seconds at least a minute away
from both ends of the `int64` range, so that adding or subtracting the leeway does not
overflow. -/
def nowInRange (now : time.Time) : Prop :=
  0 ≤ now.nsec ∧ now.nsec < 1000000000 ∧
  -9223372036854775808 + 60 ≤ now.sec ∧ now.sec + 60 ≤ 9223372036854775807

/-- The request `r` with `subject` stored in its context under the key `"subject"`. -/
def withSubject (r : http.Request) (subject : String) : http.Request :=
  r.WithContext (context.WithValue r.ctx "subject" (.str subject))

/-- The property of a trace of a middleware wrapped around `greetHandler`, on request `r`,
where `returned` says which strings the verification backend returned as subject: every
request forwarded is `r` with a string the backend returned stored under `"subject"`, it is
the only request forwarded, `greetHandler` answers it with `"hello "` and that string when
it is not empty and with `"no subject"` when it is empty, and a trace with an error
response forwards nothing. -/
def ForwardsSubject {ρ : Type} (r : http.Request) (returned : String → Prop)
    (tr : List (Effect (List (Effect ρ)))) : Prop :=
  (∀ r' ∈ nextCalls tr, ∃ subject : String,
    returned subject ∧
    r' = withSubject r subject ∧
    r'.ctx.Value "subject" = some (.str subject) ∧
    nextCalls tr = [r'] ∧
    served tr = [greetHandler r'] ∧
    responses tr = [] ∧
    (subject ≠ "" → greetHandler r' =
      ([.logPrint .l ("got request from " ++ subject), .write ("hello " ++ subject)] :
        List (Effect ρ))) ∧
    (subject = "" → greetHandler r' = ([.write "no subject"] : List (Effect ρ)))) ∧
  (responses tr ≠ [] → nextCalls tr = [] ∧ served tr = [])

/-! ## Sample data -/

/-- Case tables that fold every rune above ASCII to itself. -/
def sampleTables : unicode.CaseTables := ⟨fun r => r⟩

/-- A request whose only header is `Authorization`, with the given value. -/
def requestWith (authHeader : GoString) : http.Request :=
  { Header := [("Authorization", [authHeader])], ctx := [] }

/-- A request without any header. -/
def bareRequest : http.Request := { Header := [], ctx := [] }

/-- The instant 1000 seconds after the Unix epoch. -/
def at1000 : time.Time := time.Unix 1000 0

/-- The instant 1061 seconds after the Unix epoch. -/
def at1061 : time.Time := time.Unix 1061 0

/-- The header value `"bearer abc"`. -/
def bearerAbc : GoString := [98, 101, 97, 114, 101, 114, 32, 97, 98, 99]

/-- The token `"abc"`. -/
def abc : GoString := [97, 98, 99]

/-- A token reviewer that authenticates every token as the given user. -/
def reviewerFor (username : String) : TokenReviewInterface :=
  { Create := fun _ tokenReview =>
      .ok { tokenReview with
        Status := { Authenticated := true, User := { Username := username }, Error := "" } } }

/-- A verifier that accepts every token, with the given subject. -/
def verifierFor (subject : String) : IDTokenVerifier :=
  { Verify := fun _ _ => .ok { Subject := subject } }

/-- A verifier that fails on every token, with the given error. -/
def verifierFailing (err : String) : IDTokenVerifier :=
  { Verify := fun _ _ => .error err }

/-- Claims with the given subject, audience, expiry and not-before, and nothing else. -/
def claimsOf (subject : String) (audience : List String) (expiry notBefore : Option Int) :
    jwt.Claims :=
  { Issuer := "", Subject := subject, Audience := audience, Expiry := expiry,
    NotBefore := notBefore, IssuedAt := none, ID := "" }

/-- A go-jose in which every token parses and verifies, with the given claims, and claims
are validated by `jwt.Claims.Validate`. -/
def joseWith (claims : jwt.Claims) : JoseLib Unit Unit :=
  { ParseSigned := fun _ => .ok (), Claims := fun _ _ => .ok claims,
    Validate := jwt.Claims.Validate }

/-- Library functions over a file system in which every file is empty; no key ever parses. -/
def emptyFileLib : KeyLib Unit :=
  { ReadFile := fun _ => .ok [], decodeFrom := fun _ => none,
    ParsePKIXPublicKey := fun _ => .error "x509: failed to parse public key" }

/-! ## Lemmas on the decoder and on `EqualFold` -/

theorem or_ge_left {a b n : Nat} (h : 2 ^ n ≤ a) : 2 ^ n ≤ a ||| b := by
  obtain ⟨i, hi, hb⟩ := Nat.ge_two_pow_implies_high_bit_true h
  have h1 : (a ||| b).testBit i = true := by simp [hb]
  have h2 := Nat.testBit_implies_ge h1
  have h3 : 2 ^ n ≤ 2 ^ i := Nat.pow_le_pow_right (by decide) hi
  omega

theorem or_ge_right {a b n : Nat} (h : 2 ^ n ≤ b) : 2 ^ n ≤ a ||| b := by
  rw [Nat.or_comm]; exact or_ge_left h

theorem and_1F (x : Nat) : x &&& 0x1F = x % 32 := Nat.and_pow_two_sub_one_eq_mod x 5

theorem and_0F (x : Nat) : x &&& 0x0F = x % 16 := Nat.and_pow_two_sub_one_eq_mod x 4

theorem and_07 (x : Nat) : x &&& 0x07 = x % 8 := Nat.and_pow_two_sub_one_eq_mod x 3

theorem and_3F (x : Nat) : x &&& 0x3F = x % 64 := Nat.and_pow_two_sub_one_eq_mod x 6

/-- The value of the table `first` on a leading byte that is not ASCII. -/
theorem first_val (s0 : Nat) (h : 128 ≤ s0) :
    utf8.first s0 = 0xF1 ∨
    (utf8.first s0 = 0x02 ∧ 0xC2 ≤ s0 ∧ s0 < 0xE0) ∨
    (utf8.first s0 = 0x13 ∧ s0 = 0xE0) ∨
    (utf8.first s0 = 0x03 ∧ 0xE1 ≤ s0 ∧ s0 < 0xF0) ∨
    (utf8.first s0 = 0x23 ∧ s0 = 0xED) ∨
    (utf8.first s0 = 0x34 ∧ s0 = 0xF0) ∨
    (utf8.first s0 = 0x04 ∧ 0xF1 ≤ s0 ∧ s0 < 0xF4) ∨
    (utf8.first s0 = 0x44 ∧ s0 = 0xF4) := by
  unfold utf8.first
  rw [if_neg (by omega)]
  by_cases h1 : s0 < 0xC2
  · rw [if_pos h1]; exact Or.inl rfl
  rw [if_neg h1]
  by_cases h2 : s0 < 0xE0
  · rw [if_pos h2]; exact Or.inr (Or.inl ⟨rfl, by omega, h2⟩)
  rw [if_neg h2]
  by_cases h3 : s0 = 0xE0
  · rw [if_pos h3]; exact Or.inr (Or.inr (Or.inl ⟨rfl, h3⟩))
  rw [if_neg h3]
  by_cases h4 : s0 < 0xED
  · rw [if_pos h4]; exact Or.inr (Or.inr (Or.inr (Or.inl ⟨rfl, by omega, by omega⟩)))
  rw [if_neg h4]
  by_cases h5 : s0 = 0xED
  · rw [if_pos h5]; exact Or.inr (Or.inr (Or.inr (Or.inr (Or.inl ⟨rfl, h5⟩))))
  rw [if_neg h5]
  by_cases h6 : s0 < 0xF0
  · rw [if_pos h6]; exact Or.inr (Or.inr (Or.inr (Or.inl ⟨rfl, by omega, by omega⟩)))
  rw [if_neg h6]
  by_cases h7 : s0 = 0xF0
  · rw [if_pos h7]; exact Or.inr (Or.inr (Or.inr (Or.inr (Or.inr (Or.inl ⟨rfl, h7⟩)))))
  rw [if_neg h7]
  by_cases h8 : s0 < 0xF4
  · rw [if_pos h8]
    exact Or.inr (Or.inr (Or.inr (Or.inr (Or.inr (Or.inr (Or.inl ⟨rfl, by omega, h8⟩))))))
  rw [if_neg h8]
  by_cases h9 : s0 = 0xF4
  · rw [if_pos h9]
    exact Or.inr (Or.inr (Or.inr (Or.inr (Or.inr (Or.inr (Or.inr ⟨rfl, h9⟩))))))
  rw [if_neg h9]; exact Or.inl rfl

/-- A first byte that is not ASCII decodes to a rune that is not ASCII. -/
theorem decode_ge (s : GoString) (h0 : 128 ≤ utf8.byteAt s 0) :
    128 ≤ (utf8.DecodeRuneInString s).1 := by
  have h7 : ∀ {a b : Nat}, 128 ≤ a → 128 ≤ a ||| b := fun {a b} h => @or_ge_left a b 7 h
  have h7r : ∀ {a b : Nat}, 128 ≤ b → 128 ≤ a ||| b := fun {a b} h => @or_ge_right a b 7 h
  unfold utf8.DecodeRuneInString
  simp only []
  by_cases hn : s.length < 1
  · rw [if_pos hn]; decide
  rw [if_neg hn]
  rcases first_val _ h0 with hv | ⟨hv, hr⟩ | ⟨hv, hr⟩ | ⟨hv, hr⟩ | ⟨hv, hr⟩ | ⟨hv, hr⟩ |
    ⟨hv, hr⟩ | ⟨hv, hr⟩
  all_goals simp only [hv, utf8.acceptRanges, utf8.RuneError]
  all_goals norm_num
  all_goals simp only [(by decide : (2 : Nat) &&& 7 = 2), (by decide : (19 : Nat) &&& 7 = 3),
    (by decide : (3 : Nat) &&& 7 = 3), (by decide : (35 : Nat) &&& 7 = 3),
    (by decide : (52 : Nat) &&& 7 = 4), (by decide : (4 : Nat) &&& 7 = 4),
    (by decide : (68 : Nat) &&& 7 = 4)]
  all_goals norm_num
  all_goals split_ifs
  all_goals simp only [and_1F, and_0F, and_07, and_3F, Nat.shiftLeft_eq]
  all_goals
    first
      | omega
      | (apply h7; omega)
      | (apply h7; apply h7; omega)
      | (apply h7; apply h7r; omega)
      | (apply h7; apply h7; apply h7; omega)
      | (apply h7; apply h7; apply h7r; omega)

theorem nextRune_ascii (b : UInt8) (s : GoString) (h : b.toNat < 128) :
    strings.nextRune (b :: s) = (b.toNat, s) := by
  simp [strings.nextRune, utf8.byteAt, utf8.RuneSelf, h]

theorem nextRune_high (b : UInt8) (s : GoString) (h : ¬ b.toNat < 128) :
    128 ≤ (strings.nextRune (b :: s)).1 := by
  have h0 : 128 ≤ utf8.byteAt (b :: s) 0 := by simp [utf8.byteAt]; omega
  have hd := decode_ge (b :: s) h0
  unfold strings.nextRune
  rw [if_neg (by simp [utf8.RuneSelf]; omega)]
  exact hd

theorem foldLoop_self (T : unicode.CaseTables) (sr tr n : Nat) :
    strings.foldLoop T sr tr n sr = some sr := by
  cases n <;> simp [strings.foldLoop]

/-- Starting from an ASCII rune other than `K k S s`, the orbit walk of `EqualFold` towards
a rune that is not ASCII comes back to its start after at most one step. -/
theorem foldLoop_ascii (T : unicode.CaseTables) (lo hi n : Nat) (hs : asciiSafe lo)
    (hhi : 128 ≤ hi) (hn : 1 ≤ n) :
    strings.foldLoop T lo hi n (unicode.SimpleFold T lo) = some lo := by
  obtain ⟨h1, h2, h3, h4, h5⟩ := hs
  obtain ⟨m, rfl⟩ : ∃ m, n = m + 1 := ⟨n - 1, by omega⟩
  have hf : unicode.SimpleFold T lo = unicode.asciiFold lo := by
    unfold unicode.SimpleFold unicode.MaxRune
    rw [if_neg (by omega), if_pos h1]
  rw [hf]
  by_cases hu : 0x41 ≤ lo ∧ lo ≤ 0x5A
  · have ha : unicode.asciiFold lo = lo + 0x20 := by unfold unicode.asciiFold; rw [if_pos hu]
    have hb : unicode.SimpleFold T (lo + 0x20) = lo := by
      unfold unicode.SimpleFold unicode.MaxRune unicode.asciiFold
      rw [if_neg (by omega), if_pos (by omega), if_neg (by omega), if_neg (by omega),
        if_neg (by omega), if_pos (by omega)]
      omega
    rw [ha]
    unfold strings.foldLoop
    rw [if_pos (by omega), hb]
    exact foldLoop_self T lo hi m
  · by_cases hl : 0x61 ≤ lo ∧ lo ≤ 0x7A
    · have ha : unicode.asciiFold lo = lo - 0x20 := by
        unfold unicode.asciiFold
        rw [if_neg hu, if_neg h3, if_neg h5, if_pos hl]
      have hb : unicode.SimpleFold T (lo - 0x20) = lo := by
        unfold unicode.SimpleFold unicode.MaxRune unicode.asciiFold
        rw [if_neg (by omega), if_pos (by omega), if_pos (by omega)]
        omega
      rw [ha]
      unfold strings.foldLoop
      rw [if_pos (by omega), hb]
      exact foldLoop_self T lo hi m
    · have ha : unicode.asciiFold lo = lo := by
        unfold unicode.asciiFold
        rw [if_neg hu, if_neg h3, if_neg h5, if_neg hl]
      rw [ha]
      exact foldLoop_self T lo hi (m + 1)

theorem lowerASCII_eq_iff (b c : Nat) (hb : b < 128) (hc : c < 128) (hne : c ≠ b) :
    lowerASCII b = lowerASCII c ↔
      (0x41 ≤ (if c < b then c else b) ∧ (if c < b then c else b) ≤ 0x5A ∧
        (if c < b then b else c) = (if c < b then c else b) + 0x61 - 0x41) := by
  unfold lowerASCII
  split_ifs <;> omega

theorem lowerASCII_high (b c : Nat) (hb : ¬ b < 128) (hc : c < 128) :
    lowerASCII b ≠ lowerASCII c := by
  unfold lowerASCII
  split_ifs <;> omega

theorem equalIgnoringCase_cons (b c : UInt8) (s t : GoString) :
    equalIgnoringCase (b :: s) (c :: t) =
      (decide (lowerASCII b.toNat = lowerASCII c.toNat) && equalIgnoringCase s t) := by
  simp [equalIgnoringCase]

/-- Against a string of ASCII bytes other than `K k S s`, `EqualFold` with enough fuel
returns, and its result is byte-wise equality up to ASCII letter case. -/
theorem EqualFold_ascii (T : unicode.CaseTables) :
    ∀ (t : GoString), (∀ c ∈ t, asciiSafe c.toNat) → ∀ (s : GoString) (fuel : Nat),
      t.length + 1 ≤ fuel → strings.EqualFold T fuel s t = some (equalIgnoringCase s t) := by
  intro t
  induction t with
  | nil =>
    intro _ s fuel hf
    obtain ⟨n, rfl⟩ : ∃ n, fuel = n + 1 := ⟨fuel - 1, by simp at hf; omega⟩
    cases s <;> simp [strings.EqualFold, equalIgnoringCase]
  | cons c t ih =>
    intro ht s fuel hf
    obtain ⟨n, rfl⟩ : ∃ n, fuel = n + 1 := ⟨fuel - 1, by simp at hf; omega⟩
    have hn : t.length + 1 ≤ n := by simp at hf; omega
    have hc : asciiSafe c.toNat := ht c (List.mem_cons_self _ _)
    have hc1 : c.toNat < 128 := hc.1
    have ht' : ∀ d ∈ t, asciiSafe d.toNat := fun d hd => ht d (List.mem_cons_of_mem _ hd)
    cases s with
    | nil => simp [strings.EqualFold, equalIgnoringCase]
    | cons b s =>
      unfold strings.EqualFold
      rw [if_pos (by simp)]
      simp only []
      rw [nextRune_ascii c t hc.1, equalIgnoringCase_cons]
      by_cases hb : b.toNat < 128
      · rw [nextRune_ascii b s hb]
        simp only []
        by_cases heq : c.toNat = b.toNat
        · rw [if_pos heq, ih ht' s n hn]
          simp [heq]
        · rw [if_neg heq]
          have hhi : (if c.toNat < b.toNat then b.toNat else c.toNat) < utf8.RuneSelf := by
            unfold utf8.RuneSelf; split_ifs <;> omega
          rw [if_pos hhi]
          have hiff := lowerASCII_eq_iff b.toNat c.toNat hb hc.1 heq
          by_cases hcase : (0x41 ≤ (if c.toNat < b.toNat then c.toNat else b.toNat) ∧
              (if c.toNat < b.toNat then c.toNat else b.toNat) ≤ 0x5A ∧
              (if c.toNat < b.toNat then b.toNat else c.toNat) =
                (if c.toNat < b.toNat then c.toNat else b.toNat) + 0x61 - 0x41)
          · rw [if_pos hcase, ih ht' s n hn]
            simp [hiff.mpr hcase]
          · rw [if_neg hcase]
            have : ¬ lowerASCII b.toNat = lowerASCII c.toNat := fun h => hcase (hiff.mp h)
            simp [this]
      · have hr := nextRune_high b s hb
        generalize (strings.nextRune (b :: s)).1 = sr at hr
        generalize (strings.nextRune (b :: s)).2 = rest
        have hne : ¬ c.toNat = sr := by omega
        have hlt : c.toNat < sr := by omega
        rw [if_neg hne]
        simp only [if_pos hlt]
        rw [if_neg (by unfold utf8.RuneSelf; omega), foldLoop_ascii T c.toNat sr n hc hr (by omega)]
        simp only []
        rw [if_neg hne]
        have := lowerASCII_high b.toNat c.toNat hb hc.1
        simp [this]

theorem bearerPfx_safe : ∀ c ∈ bearerPfx, asciiSafe c.toNat := by
  intro c hc
  simp only [bearerPfx, List.mem_cons, List.mem_singleton, List.not_mem_nil, or_false] at hc
  rcases hc with rfl | rfl | rfl | rfl | rfl | rfl | rfl <;>
    exact ⟨by decide, by decide, by decide, by decide, by decide⟩

/-- With fuel 8 or more `getToken` returns, and returns the token the claim describes. -/
theorem getToken_eq (T : unicode.CaseTables) (fuel : Nat) (r : http.Request) (hf : 8 ≤ fuel) :
    getToken T fuel r = some (bearerToken (r.Header.Get "Authorization")) := by
  unfold getToken bearerToken hasBearerPfx
  simp only []
  have hl : bearerPfx.length = 7 := rfl
  rw [hl]
  by_cases hlen : (r.Header.Get "Authorization").length < 7
  · rw [if_pos hlen, if_neg (by omega)]
  · rw [if_neg hlen, EqualFold_ascii T bearerPfx bearerPfx_safe _ fuel (by rw [hl]; omega)]
    simp only []
    by_cases h : equalIgnoringCase (List.take 7 (r.Header.Get "Authorization")) bearerPfx = true
    · rw [if_neg (by simp [h]), if_pos ⟨by omega, h⟩]
    · rw [if_pos (by simpa using h), if_neg (fun hp => h hp.2)]

theorem Header_Get_missing (h : http.Header) (key : String) (hm : h.lookup key = none) :
    h.Get key = [] := by
  unfold http.Header.Get
  rw [hm]

theorem bearerToken_of_not_pfx (v : GoString) (h : ¬ hasBearerPfx v) : bearerToken v = [] := by
  unfold bearerToken
  rw [if_neg h]

theorem bearerToken_of_pfx (v : GoString) (h : hasBearerPfx v) : bearerToken v = v.drop 7 := by
  unfold bearerToken
  rw [if_pos h]

theorem not_pfx_of_missing (h : http.Header) (hm : h.lookup "Authorization" = none) :
    ¬ hasBearerPfx (h.Get "Authorization") := by
  rw [Header_Get_missing h _ hm]
  decide

/-! ## The claims -/

/-- C1: with enough fuel, `getToken` always returns; it returns the Authorization header
value without its first 7 bytes when the value has at least 7 bytes and its first 7 bytes
equal `"Bearer "` ignoring letter case, and the empty string in every other case: header
missing, value shorter than 7 bytes, or first 7 bytes not matching. -/
theorem getToken_returns_bearer_token (T : unicode.CaseTables) (fuel : Nat) (r : http.Request)
    (hf : 8 ≤ fuel) :
    (7 ≤ (r.Header.Get "Authorization").length ∧
        equalIgnoringCase ((r.Header.Get "Authorization").take 7) bearerPfx = true →
      getToken T fuel r = some ((r.Header.Get "Authorization").drop 7)) ∧
    (¬ (7 ≤ (r.Header.Get "Authorization").length ∧
        equalIgnoringCase ((r.Header.Get "Authorization").take 7) bearerPfx = true) →
      getToken T fuel r = some []) ∧
    (r.Header.lookup "Authorization" = none → getToken T fuel r = some []) ∧
    ((r.Header.Get "Authorization").length < 7 → getToken T fuel r = some []) ∧
    (equalIgnoringCase ((r.Header.Get "Authorization").take 7) bearerPfx = false →
      getToken T fuel r = some []) := by
  rw [getToken_eq T fuel r hf]
  refine ⟨fun h => ?_, fun h => ?_, fun h => ?_, fun h => ?_, fun h => ?_⟩
  · rw [bearerToken_of_pfx _ h]
  · rw [bearerToken_of_not_pfx _ h]
  · rw [bearerToken_of_not_pfx _ (not_pfx_of_missing _ h)]
  · rw [bearerToken_of_not_pfx _ (fun hp => by have := hp.1; omega)]
  · rw [bearerToken_of_not_pfx _ (fun hp => by have h2 := hp.2; rw [h] at h2; exact absurd h2 (by decide))]

/-- Witness of C1: on the header value `"bearer abc"` the token is `"abc"`. -/
theorem getToken_returns_bearer_token_witness :
    8 ≤ 8 ∧ getToken sampleTables 8 (requestWith bearerAbc) = some abc :=
  ⟨by decide,
    (getToken_returns_bearer_token sampleTables 8 (requestWith bearerAbc) (by decide)).1
      (by decide)⟩

/-- C2: for a request without Authorization header, or whose Authorization header does not
start with `"Bearer "` ignoring letter case, `getToken` yields the empty token and each of
the three middlewares answers with status 401, calls no verification backend and never
invokes the wrapped handler. -/
theorem no_bearer_token_denied {ρ τ κ : Type} (T : unicode.CaseTables) (fuel : Nat)
    (r : http.Request) (hf : 8 ≤ fuel)
    (h : r.Header.lookup "Authorization" = none ∨ ¬ hasBearerPfx (r.Header.Get "Authorization")) :
    getToken T fuel r = some [] ∧
    (∀ (cfg : TokenReviewConfig) (next : http.Request → ρ),
      ∃ tr, TokenReviewAuth T fuel cfg next r = some tr ∧
        (responses tr).map Prod.snd = [401] ∧ backendCalls tr = [] ∧ nextCalls tr = []) ∧
    (∀ (lib : JoseLib τ κ) (now : time.Time) (cfg : JWTPubKeyConfig κ) (next : http.Request → ρ),
      ∃ tr, JWTPubKeyAuth T fuel lib now cfg next r = some tr ∧
        (responses tr).map Prod.snd = [401] ∧ backendCalls tr = [] ∧ nextCalls tr = []) ∧
    (∀ (cfg : OIDCDiscoveryConfig) (next : http.Request → ρ),
      ∃ tr, OIDCDiscoveryAuth T fuel cfg next r = some tr ∧
        (responses tr).map Prod.snd = [401] ∧ backendCalls tr = [] ∧ nextCalls tr = []) := by
  have hp : ¬ hasBearerPfx (r.Header.Get "Authorization") := by
    rcases h with h | h
    · exact not_pfx_of_missing _ h
    · exact h
  have ht : getToken T fuel r = some [] := by
    rw [getToken_eq T fuel r hf, bearerToken_of_not_pfx _ hp]
  refine ⟨ht, ?_, ?_, ?_⟩
  · intro cfg next
    unfold TokenReviewAuth
    rw [ht]
    exact ⟨_, rfl, rfl, rfl, rfl⟩
  · intro lib now cfg next
    unfold JWTPubKeyAuth
    rw [ht]
    exact ⟨_, rfl, rfl, rfl, rfl⟩
  · intro cfg next
    unfold OIDCDiscoveryAuth
    rw [ht]
    exact ⟨_, rfl, rfl, rfl, rfl⟩

/-- Witness of C2: a request without any header. -/
theorem no_bearer_token_denied_witness :
    8 ≤ 8 ∧
    (bareRequest.Header.lookup "Authorization" = none ∨
      ¬ hasBearerPfx (bareRequest.Header.Get "Authorization")) ∧
    getToken sampleTables 8 bareRequest = some [] :=
  ⟨by decide, Or.inl rfl,
    (@no_bearer_token_denied Unit Unit Unit sampleTables 8 bareRequest (by decide)
      (Or.inl rfl)).1⟩

/-- C4: for a request with a non-empty bearer token, `TokenReviewAuth` sends exactly one
review, carrying the extracted token and `cfg.audiences`, and its response follows the reply
of `Create`: on an error, status 500 with text `"Internal Server Error: "` and the message,
handler not invoked; on `Authenticated = false`, status 401 with text `"Unauthorized: "` and
`Status.Error`, handler not invoked; on `Authenticated = true`, the handler is invoked
exactly once, with `Status.User.Username` in the context under `"subject"`, and no error
response is written. -/
theorem tokenReview_response_follows_reply {ρ : Type} (T : unicode.CaseTables) (fuel : Nat)
    (cfg : TokenReviewConfig) (next : http.Request → ρ) (r : http.Request) (hf : 8 ≤ fuel)
    (ht : bearerToken (r.Header.Get "Authorization") ≠ []) :
    ∃ tr, TokenReviewAuth T fuel cfg next r = some tr ∧
      backendCalls tr = [.tokenReviewCreate r.ctx
        (newTokenReview (bearerToken (r.Header.Get "Authorization")) cfg.audiences)] ∧
      (newTokenReview (bearerToken (r.Header.Get "Authorization")) cfg.audiences).Spec =
        { Token := bearerToken (r.Header.Get "Authorization"), Audiences := cfg.audiences } ∧
      (∀ err, cfg.tokenReviewer.Create r.ctx
          (newTokenReview (bearerToken (r.Header.Get "Authorization")) cfg.audiences)
            = .error err →
        responses tr = [("Internal Server Error: " ++ err, 500)] ∧ nextCalls tr = []) ∧
      (∀ reply, cfg.tokenReviewer.Create r.ctx
          (newTokenReview (bearerToken (r.Header.Get "Authorization")) cfg.audiences)
            = .ok reply →
        reply.Status.Authenticated = false →
        responses tr = [("Unauthorized: " ++ reply.Status.Error, 401)] ∧ nextCalls tr = []) ∧
      (∀ reply, cfg.tokenReviewer.Create r.ctx
          (newTokenReview (bearerToken (r.Header.Get "Authorization")) cfg.audiences)
            = .ok reply →
        reply.Status.Authenticated = true →
        nextCalls tr = [withSubject r reply.Status.User.Username] ∧
        served tr = [next (withSubject r reply.Status.User.Username)] ∧
        (withSubject r reply.Status.User.Username).ctx.Value "subject"
          = some (.str reply.Status.User.Username) ∧
        responses tr = []) := by
  unfold TokenReviewAuth
  rw [getToken_eq T fuel r hf]
  simp only [if_neg ht]
  cases hc : cfg.tokenReviewer.Create r.ctx
      (newTokenReview (bearerToken (r.Header.Get "Authorization")) cfg.audiences) with
  | error e =>
    refine ⟨_, rfl, rfl, rfl, ?_, ?_, ?_⟩
    · intro err he
      cases he
      exact ⟨rfl, rfl⟩
    · intro reply he
      cases he
    · intro reply he
      cases he
  | ok rep =>
    cases ha : rep.Status.Authenticated with
    | false =>
      simp only [ha, Bool.not_false, if_true]
      refine ⟨_, rfl, rfl, rfl, ?_, ?_, ?_⟩
      · intro err he
        cases he
      · intro reply he _
        cases he
        exact ⟨rfl, rfl⟩
      · intro reply he hb
        cases he
        rw [ha] at hb
        cases hb
    | true =>
      simp only [ha, Bool.not_true, Bool.false_eq_true, if_false]
      refine ⟨_, rfl, rfl, rfl, ?_, ?_, ?_⟩
      · intro err he
        cases he
      · intro reply he hb
        cases he
        rw [ha] at hb
        cases hb
      · intro reply he _
        cases he
        exact ⟨rfl, rfl, by simp [withSubject, http.Request.WithContext, context.WithValue,
          context.Context.Value, List.lookup], rfl⟩

/-- Witness of C4: the review backend authenticates the token `"abc"` as `alice`. -/
theorem tokenReview_response_follows_reply_witness :
    8 ≤ 8 ∧ bearerToken ((requestWith bearerAbc).Header.Get "Authorization") ≠ [] ∧
    ∃ tr, TokenReviewAuth sampleTables 8 ⟨reviewerFor "alice", ["svc-a"]⟩
        (@greetHandler Empty) (requestWith bearerAbc) = some tr ∧
      backendCalls tr = [.tokenReviewCreate [] (newTokenReview abc ["svc-a"])] :=
  ⟨by decide, by decide,
    by
      obtain ⟨tr, h1, h2, _⟩ := tokenReview_response_follows_reply sampleTables 8
        ⟨reviewerFor "alice", ["svc-a"]⟩ (@greetHandler Empty) (requestWith bearerAbc)
        (by decide) (by decide)
      exact ⟨tr, h1, h2⟩⟩

/-- C5: for a request with a non-empty bearer token, `OIDCDiscoveryAuth` answers every error
of `cfg.verifier.Verify`, whatever its message, with status 401 (never 500) and the text
`"Unauthorized: "` followed by the message, and does not invoke the wrapped handler; when
`Verify` succeeds it invokes the wrapped handler exactly once, with the verified token's
`Subject` in the context under `"subject"`. -/
theorem oidc_errors_are_401 {ρ : Type} (T : unicode.CaseTables) (fuel : Nat)
    (cfg : OIDCDiscoveryConfig) (next : http.Request → ρ) (r : http.Request) (hf : 8 ≤ fuel)
    (ht : bearerToken (r.Header.Get "Authorization") ≠ []) :
    ∃ tr, OIDCDiscoveryAuth T fuel cfg next r = some tr ∧
      backendCalls tr = [.verify r.ctx (bearerToken (r.Header.Get "Authorization"))] ∧
      (∀ err, cfg.verifier.Verify r.ctx (bearerToken (r.Header.Get "Authorization"))
          = .error err →
        responses tr = [("Unauthorized: " ++ err, 401)] ∧
        (∀ p ∈ responses tr, p.2 ≠ 500) ∧ nextCalls tr = []) ∧
      (∀ token, cfg.verifier.Verify r.ctx (bearerToken (r.Header.Get "Authorization"))
          = .ok token →
        nextCalls tr = [withSubject r token.Subject] ∧
        served tr = [next (withSubject r token.Subject)] ∧
        (withSubject r token.Subject).ctx.Value "subject" = some (.str token.Subject) ∧
        responses tr = []) := by
  unfold OIDCDiscoveryAuth
  rw [getToken_eq T fuel r hf]
  simp only [if_neg ht]
  cases hc : cfg.verifier.Verify r.ctx (bearerToken (r.Header.Get "Authorization")) with
  | error e =>
    refine ⟨_, rfl, rfl, ?_, ?_⟩
    · intro err he
      cases he
      refine ⟨rfl, ?_, rfl⟩
      intro p hp
      simp only [responses, List.mem_singleton] at hp
      rw [hp]
      show (401 : Nat) ≠ 500
      decide
    · intro token he
      cases he
  | ok tok =>
    refine ⟨_, rfl, rfl, ?_, ?_⟩
    · intro err he
      cases he
    · intro token he
      cases he
      exact ⟨rfl, rfl, by simp [withSubject, http.Request.WithContext, context.WithValue,
        context.Context.Value, List.lookup], rfl⟩

/-- Witness of C5: the verifier cannot reach the provider. -/
theorem oidc_errors_are_401_witness :
    8 ≤ 8 ∧ bearerToken ((requestWith bearerAbc).Header.Get "Authorization") ≠ [] ∧
    ∃ tr, OIDCDiscoveryAuth sampleTables 8 ⟨verifierFailing "connection refused"⟩
        (@greetHandler Empty) (requestWith bearerAbc) = some tr ∧
      responses tr = [("Unauthorized: connection refused", 401)] :=
  ⟨by decide, by decide,
    by
      obtain ⟨tr, h1, _, h3, _⟩ := oidc_errors_are_401 sampleTables 8
        ⟨verifierFailing "connection refused"⟩ (@greetHandler Empty) (requestWith bearerAbc)
        (by decide) (by decide)
      exact ⟨tr, h1, (h3 "connection refused" rfl).1⟩⟩

/-- Counterexample to C8: on a request without token `TokenReviewAuth` answers with the
text `"Unauthorized: could not read token"`, not `"Unauthorized: no token"`. -/
theorem tokenReview_no_token_text_differs :
    (TokenReviewAuth sampleTables 8 ⟨reviewerFor "alice", []⟩ (@greetHandler Empty)
        bareRequest).map responses = some [("Unauthorized: could not read token", 401)] ∧
    (TokenReviewAuth sampleTables 8 ⟨reviewerFor "alice", []⟩ (@greetHandler Empty)
        bareRequest).map responses ≠ some [("Unauthorized: no token", 401)] := by
  constructor <;> decide

/-- C8, amended: for a request from which no bearer token can be extracted, `JWTPubKeyAuth` and
`OIDCDiscoveryAuth` write status 401 with the text `"Unauthorized: no token"`, and
`TokenReviewAuth` writes status 401 with the text `"Unauthorized: could not read token"`. -/
theorem no_token_responses {ρ τ κ : Type} (T : unicode.CaseTables) (fuel : Nat)
    (r : http.Request) (hf : 8 ≤ fuel) (ht : bearerToken (r.Header.Get "Authorization") = []) :
    (∀ (lib : JoseLib τ κ) (now : time.Time) (cfg : JWTPubKeyConfig κ) (next : http.Request → ρ),
      ∃ tr, JWTPubKeyAuth T fuel lib now cfg next r = some tr ∧
        responses tr = [("Unauthorized: no token", 401)]) ∧
    (∀ (cfg : OIDCDiscoveryConfig) (next : http.Request → ρ),
      ∃ tr, OIDCDiscoveryAuth T fuel cfg next r = some tr ∧
        responses tr = [("Unauthorized: no token", 401)]) ∧
    (∀ (cfg : TokenReviewConfig) (next : http.Request → ρ),
      ∃ tr, TokenReviewAuth T fuel cfg next r = some tr ∧
        responses tr = [("Unauthorized: could not read token", 401)]) := by
  have hg : getToken T fuel r = some [] := by rw [getToken_eq T fuel r hf, ht]
  refine ⟨?_, ?_, ?_⟩
  · intro lib now cfg next
    unfold JWTPubKeyAuth
    rw [hg]
    exact ⟨_, rfl, rfl⟩
  · intro cfg next
    unfold OIDCDiscoveryAuth
    rw [hg]
    exact ⟨_, rfl, rfl⟩
  · intro cfg next
    unfold TokenReviewAuth
    rw [hg]
    exact ⟨_, rfl, rfl⟩

/-- Witness of C8, amended: a request without any header, under `OIDCDiscoveryAuth`. -/
theorem no_token_responses_witness :
    8 ≤ 8 ∧ bearerToken (bareRequest.Header.Get "Authorization") = [] ∧
    ∃ tr, OIDCDiscoveryAuth sampleTables 8 ⟨verifierFor "alice"⟩ (@greetHandler Empty)
        bareRequest = some tr ∧ responses tr = [("Unauthorized: no token", 401)] :=
  ⟨by decide, by decide,
    (@no_token_responses (List (Effect Empty)) Unit Unit sampleTables 8 bareRequest (by decide)
      (by decide)).2.1 ⟨verifierFor "alice"⟩ (@greetHandler Empty)⟩

theorem greetHandler_withSubject {ρ : Type} (r : http.Request) (subject : String) :
    (greetHandler (withSubject r subject) : List (Effect ρ)) =
      if subject = "" then [.write "no subject"]
      else [.logPrint .l ("got request from " ++ subject), .write ("hello " ++ subject)] := by
  simp [greetHandler, withSubject, http.Request.WithContext, context.WithValue,
    context.Context.Value, List.lookup]

theorem value_withSubject (r : http.Request) (subject : String) :
    (withSubject r subject).ctx.Value "subject" = some (.str subject) := by
  simp [withSubject, http.Request.WithContext, context.WithValue, context.Context.Value,
    List.lookup]

/-- A trace without error response that forwards `r` once, with a subject the backend
returned attached, has the property `ForwardsSubject`. -/
theorem forwardsSubject_of_forward {ρ : Type} (r : http.Request) (returned : String → Prop)
    (subject : String) (hret : returned subject)
    (tr : List (Effect (List (Effect ρ))))
    (hn : nextCalls tr = [withSubject r subject])
    (hs : served tr = [greetHandler (withSubject r subject)])
    (hr : responses tr = []) : ForwardsSubject r returned tr := by
  refine ⟨?_, fun h => absurd hr h⟩
  intro r' hr'
  rw [hn, List.mem_singleton] at hr'
  subst hr'
  refine ⟨subject, hret, rfl, value_withSubject r subject, hn, hs, hr, ?_, ?_⟩
  · intro hne
    rw [greetHandler_withSubject, if_neg hne]
  · intro he
    rw [greetHandler_withSubject, if_pos he]

/-- A trace that forwards nothing has the property `ForwardsSubject`. -/
theorem forwardsSubject_of_denied {ρ : Type} (r : http.Request) (returned : String → Prop)
    (tr : List (Effect (List (Effect ρ)))) (hn : nextCalls tr = []) (hs : served tr = []) :
    ForwardsSubject r returned tr := by
  refine ⟨?_, fun _ => ⟨hn, hs⟩⟩
  intro r' hr'
  rw [hn] at hr'
  cases hr'

/-- The trace of `JWTPubKeyAuth` when the token does not parse. -/
theorem JWTPubKeyAuth_parse_error {ρ τ κ : Type} (T : unicode.CaseTables) (fuel : Nat)
    (lib : JoseLib τ κ) (now : time.Time) (cfg : JWTPubKeyConfig κ) (next : http.Request → ρ)
    (r : http.Request) (hf : 8 ≤ fuel) (ht : bearerToken (r.Header.Get "Authorization") ≠ [])
    (err : String)
    (hp : lib.ParseSigned (bearerToken (r.Header.Get "Authorization")) = .error err) :
    JWTPubKeyAuth T fuel lib now cfg next r =
      some [.backend (.parseSigned (bearerToken (r.Header.Get "Authorization"))),
        .logPrint .cfg ("failed to parse token:" ++ err),
        .httpError ("Unauthorized: " ++ err) 401] := by
  unfold JWTPubKeyAuth
  rw [getToken_eq T fuel r hf]
  simp only [if_neg ht, hp]
  rfl

/-- The trace of `JWTPubKeyAuth` when the signature check or the decoding fails. -/
theorem JWTPubKeyAuth_claims_error {ρ τ κ : Type} (T : unicode.CaseTables) (fuel : Nat)
    (lib : JoseLib τ κ) (now : time.Time) (cfg : JWTPubKeyConfig κ) (next : http.Request → ρ)
    (r : http.Request) (hf : 8 ≤ fuel) (ht : bearerToken (r.Header.Get "Authorization") ≠ [])
    (token : τ) (err : String)
    (hp : lib.ParseSigned (bearerToken (r.Header.Get "Authorization")) = .ok token)
    (hc : lib.Claims token cfg.pubKey = .error err) :
    JWTPubKeyAuth T fuel lib now cfg next r =
      some [.backend (.parseSigned (bearerToken (r.Header.Get "Authorization"))),
        .backend .tokenClaims,
        .logPrint .cfg ("failed to verify token:" ++ err),
        .httpError ("Unauthorized: " ++ err) 401] := by
  unfold JWTPubKeyAuth
  rw [getToken_eq T fuel r hf]
  simp only [if_neg ht, hp, hc]
  rfl

/-- The trace of `JWTPubKeyAuth` when the claims are not valid. -/
theorem JWTPubKeyAuth_validate_error {ρ τ κ : Type} (T : unicode.CaseTables) (fuel : Nat)
    (lib : JoseLib τ κ) (now : time.Time) (cfg : JWTPubKeyConfig κ) (next : http.Request → ρ)
    (r : http.Request) (hf : 8 ≤ fuel) (ht : bearerToken (r.Header.Get "Authorization") ≠ [])
    (token : τ) (claims : jwt.Claims) (err : String)
    (hp : lib.ParseSigned (bearerToken (r.Header.Get "Authorization")) = .ok token)
    (hc : lib.Claims token cfg.pubKey = .ok claims)
    (hv : lib.Validate claims (expectedAt cfg.audience now) = some err) :
    JWTPubKeyAuth T fuel lib now cfg next r =
      some [.backend (.parseSigned (bearerToken (r.Header.Get "Authorization"))),
        .backend .tokenClaims,
        .backend (.claimsValidate claims (expectedAt cfg.audience now)),
        .logPrint .cfg ("could not validate token:" ++ err),
        .httpError ("Unauthorized: " ++ err) 401] := by
  unfold JWTPubKeyAuth
  rw [getToken_eq T fuel r hf]
  simp only [if_neg ht, hp, hc, hv]
  rfl

/-- The trace of `JWTPubKeyAuth` when all three steps succeed. -/
theorem JWTPubKeyAuth_valid {ρ τ κ : Type} (T : unicode.CaseTables) (fuel : Nat)
    (lib : JoseLib τ κ) (now : time.Time) (cfg : JWTPubKeyConfig κ) (next : http.Request → ρ)
    (r : http.Request) (hf : 8 ≤ fuel) (ht : bearerToken (r.Header.Get "Authorization") ≠ [])
    (token : τ) (claims : jwt.Claims)
    (hp : lib.ParseSigned (bearerToken (r.Header.Get "Authorization")) = .ok token)
    (hc : lib.Claims token cfg.pubKey = .ok claims)
    (hv : lib.Validate claims (expectedAt cfg.audience now) = none) :
    JWTPubKeyAuth T fuel lib now cfg next r =
      some [.backend (.parseSigned (bearerToken (r.Header.Get "Authorization"))),
        .backend .tokenClaims,
        .backend (.claimsValidate claims (expectedAt cfg.audience now)),
        .serveHTTP (withSubject r claims.Subject) (next (withSubject r claims.Subject))] := by
  unfold JWTPubKeyAuth
  rw [getToken_eq T fuel r hf]
  simp only [if_neg ht, hp, hc, hv]
  rfl

/-- Counterexample to C9: the review backend authenticates a token with an empty user name;
`TokenReviewAuth` forwards the request with the empty string under `"subject"`, and
`greetHandler` behind it answers `"no subject"`. -/
theorem tokenReview_forwards_empty_subject :
    TokenReviewAuth sampleTables 8 ⟨reviewerFor "", []⟩ (@greetHandler Empty)
        (requestWith bearerAbc) =
      some [.backend (.tokenReviewCreate [] (newTokenReview abc [])),
        .serveHTTP (withSubject (requestWith bearerAbc) "") [.write "no subject"]] ∧
    (withSubject (requestWith bearerAbc) "").ctx.Value "subject" = some (.str "") := by
  constructor <;> decide

/-- C9, amended: for every request and each of the three middlewares wrapped around
`greetHandler`: whenever the middleware forwards the request, the string stored in the
context under `"subject"` is the subject the backend returned (`Status.User.Username` of an
authenticated review, `claims.Subject` of claims that validate, `token.Subject` of a
verified token), which may be empty, and `greetHandler` answers `"hello "` followed by
that string when it is not empty and `"no subject"` when it is empty; whenever the
middleware writes an error response, nothing is forwarded: no subject is attached and the
handler is not called. -/
theorem forwarded_subject_or_denied {ρ τ κ : Type} (T : unicode.CaseTables) (fuel : Nat)
    (r : http.Request) (hf : 8 ≤ fuel) :
    (∀ (cfg : TokenReviewConfig),
      ∃ tr, TokenReviewAuth T fuel cfg (@greetHandler ρ) r = some tr ∧
        ForwardsSubject r
          (fun subject => ∃ reply,
            cfg.tokenReviewer.Create r.ctx
              (newTokenReview (bearerToken (r.Header.Get "Authorization")) cfg.audiences)
                = .ok reply ∧
            reply.Status.Authenticated = true ∧ reply.Status.User.Username = subject) tr) ∧
    (∀ (lib : JoseLib τ κ) (now : time.Time) (cfg : JWTPubKeyConfig κ),
      ∃ tr, JWTPubKeyAuth T fuel lib now cfg (@greetHandler ρ) r = some tr ∧
        ForwardsSubject r
          (fun subject => ∃ token claims,
            lib.ParseSigned (bearerToken (r.Header.Get "Authorization")) = .ok token ∧
            lib.Claims token cfg.pubKey = .ok claims ∧
            lib.Validate claims (expectedAt cfg.audience now) = none ∧
            claims.Subject = subject) tr) ∧
    (∀ (cfg : OIDCDiscoveryConfig),
      ∃ tr, OIDCDiscoveryAuth T fuel cfg (@greetHandler ρ) r = some tr ∧
        ForwardsSubject r
          (fun subject => ∃ token,
            cfg.verifier.Verify r.ctx (bearerToken (r.Header.Get "Authorization"))
              = .ok token ∧
            token.Subject = subject) tr) := by
  refine ⟨?_, ?_, ?_⟩
  · intro cfg
    unfold TokenReviewAuth
    rw [getToken_eq T fuel r hf]
    simp only []
    by_cases ht : bearerToken (r.Header.Get "Authorization") = []
    · rw [if_pos ht]
      exact ⟨_, rfl, forwardsSubject_of_denied r _ _ rfl rfl⟩
    · rw [if_neg ht]
      cases hc : cfg.tokenReviewer.Create r.ctx
          (newTokenReview (bearerToken (r.Header.Get "Authorization")) cfg.audiences) with
      | error e => exact ⟨_, rfl, forwardsSubject_of_denied r _ _ rfl rfl⟩
      | ok rep =>
        cases ha : rep.Status.Authenticated with
        | false =>
          simp only [ha, Bool.not_false, if_true]
          exact ⟨_, rfl, forwardsSubject_of_denied r _ _ rfl rfl⟩
        | true =>
          simp only [ha, Bool.not_true, Bool.false_eq_true, if_false]
          exact ⟨_, rfl, forwardsSubject_of_forward r _ rep.Status.User.Username
            ⟨rep, rfl, ha, rfl⟩ _ rfl rfl rfl⟩
  · intro lib now cfg
    by_cases ht : bearerToken (r.Header.Get "Authorization") = []
    · unfold JWTPubKeyAuth
      rw [getToken_eq T fuel r hf]
      simp only []
      rw [if_pos ht]
      exact ⟨_, rfl, forwardsSubject_of_denied r _ _ rfl rfl⟩
    · cases hp : lib.ParseSigned (bearerToken (r.Header.Get "Authorization")) with
      | error e =>
        exact ⟨_, JWTPubKeyAuth_parse_error T fuel lib now cfg _ r hf ht e hp,
          forwardsSubject_of_denied r _ _ rfl rfl⟩
      | ok token =>
        cases hc : lib.Claims token cfg.pubKey with
        | error e =>
          exact ⟨_, JWTPubKeyAuth_claims_error T fuel lib now cfg _ r hf ht token e hp hc,
            forwardsSubject_of_denied r _ _ rfl rfl⟩
        | ok claims =>
          cases hv : lib.Validate claims (expectedAt cfg.audience now) with
          | some e =>
            exact ⟨_, JWTPubKeyAuth_validate_error T fuel lib now cfg _ r hf ht token claims e
              hp hc hv, forwardsSubject_of_denied r _ _ rfl rfl⟩
          | none =>
            exact ⟨_, JWTPubKeyAuth_valid T fuel lib now cfg _ r hf ht token claims hp hc hv,
              forwardsSubject_of_forward r _ claims.Subject ⟨token, claims, rfl, hc, hv, rfl⟩
                _ rfl rfl rfl⟩
  · intro cfg
    unfold OIDCDiscoveryAuth
    rw [getToken_eq T fuel r hf]
    simp only []
    by_cases ht : bearerToken (r.Header.Get "Authorization") = []
    · rw [if_pos ht]
      exact ⟨_, rfl, forwardsSubject_of_denied r _ _ rfl rfl⟩
    · rw [if_neg ht]
      cases hc : cfg.verifier.Verify r.ctx (bearerToken (r.Header.Get "Authorization")) with
      | error e => exact ⟨_, rfl, forwardsSubject_of_denied r _ _ rfl rfl⟩
      | ok token =>
        exact ⟨_, rfl, forwardsSubject_of_forward r _ token.Subject ⟨token, rfl, rfl⟩ _
          rfl rfl rfl⟩

/-- Witness of C9, amended: the review backend authenticates the token as `alice`. -/
theorem forwarded_subject_or_denied_witness :
    8 ≤ 8 ∧
    ∃ tr, TokenReviewAuth sampleTables 8 ⟨reviewerFor "alice", []⟩ (@greetHandler Empty)
        (requestWith bearerAbc) = some tr ∧
      ForwardsSubject (requestWith bearerAbc)
        (fun subject => ∃ reply,
          (reviewerFor "alice").Create (requestWith bearerAbc).ctx
            (newTokenReview (bearerToken ((requestWith bearerAbc).Header.Get "Authorization"))
              []) = .ok reply ∧
          reply.Status.Authenticated = true ∧ reply.Status.User.Username = subject) tr :=
  ⟨by decide,
    (@forwarded_subject_or_denied Empty Unit Unit sampleTables 8 (requestWith bearerAbc)
      (by decide)).1 ⟨reviewerFor "alice", []⟩⟩

/-- C3: for a request with a non-empty bearer token, `JWTPubKeyAuth` invokes the wrapped
handler if and only if `jwt.ParseSigned`, `token.Claims` with `cfg.pubKey` and
`claims.Validate` all succeed; then the handler is invoked exactly once, with
`claims.Subject` in the context under `"subject"`, and no error response is written; when a
step fails the response is status 401 with the text `"Unauthorized: "` followed by the
error message of that step, and the handler is not invoked. -/
theorem jwt_forwards_iff_all_steps_succeed {ρ τ κ : Type} (T : unicode.CaseTables)
    (fuel : Nat) (lib : JoseLib τ κ) (now : time.Time) (cfg : JWTPubKeyConfig κ)
    (next : http.Request → ρ) (r : http.Request) (hf : 8 ≤ fuel)
    (ht : bearerToken (r.Header.Get "Authorization") ≠ []) :
    ∃ tr, JWTPubKeyAuth T fuel lib now cfg next r = some tr ∧
      (nextCalls tr ≠ [] ↔
        ∃ token claims,
          lib.ParseSigned (bearerToken (r.Header.Get "Authorization")) = .ok token ∧
          lib.Claims token cfg.pubKey = .ok claims ∧
          lib.Validate claims (expectedAt cfg.audience now) = none) ∧
      (∀ token claims,
        lib.ParseSigned (bearerToken (r.Header.Get "Authorization")) = .ok token →
        lib.Claims token cfg.pubKey = .ok claims →
        lib.Validate claims (expectedAt cfg.audience now) = none →
        nextCalls tr = [withSubject r claims.Subject] ∧
        served tr = [next (withSubject r claims.Subject)] ∧
        (withSubject r claims.Subject).ctx.Value "subject" = some (.str claims.Subject) ∧
        responses tr = []) ∧
      (∀ err,
        lib.ParseSigned (bearerToken (r.Header.Get "Authorization")) = .error err →
        responses tr = [("Unauthorized: " ++ err, 401)] ∧ nextCalls tr = []) ∧
      (∀ token err,
        lib.ParseSigned (bearerToken (r.Header.Get "Authorization")) = .ok token →
        lib.Claims token cfg.pubKey = .error err →
        responses tr = [("Unauthorized: " ++ err, 401)] ∧ nextCalls tr = []) ∧
      (∀ token claims err,
        lib.ParseSigned (bearerToken (r.Header.Get "Authorization")) = .ok token →
        lib.Claims token cfg.pubKey = .ok claims →
        lib.Validate claims (expectedAt cfg.audience now) = some err →
        responses tr = [("Unauthorized: " ++ err, 401)] ∧ nextCalls tr = []) := by
  cases hp : lib.ParseSigned (bearerToken (r.Header.Get "Authorization")) with
  | error e =>
    refine ⟨_, JWTPubKeyAuth_parse_error T fuel lib now cfg next r hf ht e hp, ?_, ?_, ?_, ?_, ?_⟩
    · constructor
      · intro h
        exact absurd rfl h
      · rintro ⟨token, claims, h1, _⟩
        cases h1
    · intro token claims h1
      cases h1
    · intro err h1
      cases h1
      exact ⟨rfl, rfl⟩
    · intro token err h1
      cases h1
    · intro token claims err h1
      cases h1
  | ok tok =>
    cases hc : lib.Claims tok cfg.pubKey with
    | error e =>
      refine ⟨_, JWTPubKeyAuth_claims_error T fuel lib now cfg next r hf ht tok e hp hc,
        ?_, ?_, ?_, ?_, ?_⟩
      · constructor
        · intro h
          exact absurd rfl h
        · rintro ⟨token, claims, h1, h2, _⟩
          cases h1
          rw [hc] at h2
          cases h2
      · intro token claims h1 h2
        cases h1
        rw [hc] at h2
        cases h2
      · intro err h1
        cases h1
      · intro token err h1 h2
        cases h1
        rw [hc] at h2
        cases h2
        exact ⟨rfl, rfl⟩
      · intro token claims err h1 h2
        cases h1
        rw [hc] at h2
        cases h2
    | ok cl =>
      cases hv : lib.Validate cl (expectedAt cfg.audience now) with
      | some e =>
        refine ⟨_, JWTPubKeyAuth_validate_error T fuel lib now cfg next r hf ht tok cl e hp hc
          hv, ?_, ?_, ?_, ?_, ?_⟩
        · constructor
          · intro h
            exact absurd rfl h
          · rintro ⟨token, claims, h1, h2, h3⟩
            cases h1
            rw [hc] at h2
            cases h2
            rw [hv] at h3
            cases h3
        · intro token claims h1 h2 h3
          cases h1
          rw [hc] at h2
          cases h2
          rw [hv] at h3
          cases h3
        · intro err h1
          cases h1
        · intro token err h1 h2
          cases h1
          rw [hc] at h2
          cases h2
        · intro token claims err h1 h2 h3
          cases h1
          rw [hc] at h2
          cases h2
          rw [hv] at h3
          cases h3
          exact ⟨rfl, rfl⟩
      | none =>
        refine ⟨_, JWTPubKeyAuth_valid T fuel lib now cfg next r hf ht tok cl hp hc hv,
          ?_, ?_, ?_, ?_, ?_⟩
        · constructor
          · intro _
            exact ⟨tok, cl, rfl, hc, hv⟩
          · intro _ h
            cases h
        · intro token claims h1 h2 _
          cases h1
          rw [hc] at h2
          cases h2
          exact ⟨rfl, rfl, value_withSubject r cl.Subject, rfl⟩
        · intro err h1
          cases h1
        · intro token err h1 h2
          cases h1
          rw [hc] at h2
          cases h2
        · intro token claims err h1 h2 h3
          cases h1
          rw [hc] at h2
          cases h2
          rw [hv] at h3
          cases h3

/-- Witness of C3: a token that parses and verifies, with subject `alice` and no dates. -/
theorem jwt_forwards_iff_all_steps_succeed_witness :
    8 ≤ 8 ∧ bearerToken ((requestWith bearerAbc).Header.Get "Authorization") ≠ [] ∧
    ∃ tr, JWTPubKeyAuth sampleTables 8 (joseWith (claimsOf "alice" [] none none)) at1000 ⟨(), ""⟩
        (@greetHandler Empty) (requestWith bearerAbc) = some tr ∧
      nextCalls tr = [withSubject (requestWith bearerAbc) "alice"] :=
  ⟨by decide, by decide,
    by
      obtain ⟨tr, h1, _, h3, _⟩ := jwt_forwards_iff_all_steps_succeed sampleTables 8
        (joseWith (claimsOf "alice" [] none none)) at1000 ⟨(), ""⟩ (@greetHandler Empty)
        (requestWith bearerAbc) (by decide) (by decide)
      exact ⟨tr, h1, (h3 () (claimsOf "alice" [] none none) rfl rfl (by decide)).1⟩⟩

/-! ### Instants and the leeway -/

theorem wrap64_range (x : Int) :
    -9223372036854775808 ≤ time.wrap64 x ∧ time.wrap64 x ≤ 9223372036854775807 := by
  unfold time.wrap64
  omega

theorem wrap64_id (x : Int) (h1 : -9223372036854775808 ≤ x) (h2 : x ≤ 9223372036854775807) :
    time.wrap64 x = x := by
  unfold time.wrap64
  omega

theorem addSec_in_range (ext d : Int) (h1 : -9223372036854775808 ≤ ext + d)
    (h2 : ext + d ≤ 9223372036854775807) : time.addSec ext d = ext + d := by
  unfold time.addSec
  simp only [wrap64_id _ h1 h2]
  by_cases hd : d > 0
  · rw [if_pos (by simp only [decide_eq_decide]; omega)]
  · rw [if_pos (by simp only [decide_eq_decide]; omega)]

/-- Adding the default leeway to an instant in range adds 60 to its seconds. -/
theorem add_leeway (now : time.Time) (h : nowInRange now) :
    now.Add jwt.DefaultLeeway = { sec := now.sec + 60, nsec := now.nsec } := by
  obtain ⟨h1, h2, h3, h4⟩ := h
  have hd : (jwt.DefaultLeeway).tdiv 1000000000 = 60 := by decide
  have hm : (jwt.DefaultLeeway).tmod 1000000000 = 0 := by decide
  unfold time.Time.Add
  simp only [hd, hm, add_zero]
  rw [if_neg (by omega), if_neg (by omega), addSec_in_range _ _ (by omega) (by omega)]

/-- Subtracting the default leeway from an instant in range subtracts 60 from its seconds. -/
theorem sub_leeway (now : time.Time) (h : nowInRange now) :
    now.Add (-jwt.DefaultLeeway) = { sec := now.sec - 60, nsec := now.nsec } := by
  obtain ⟨h1, h2, h3, h4⟩ := h
  have hd : (-jwt.DefaultLeeway).tdiv 1000000000 = -60 := by decide
  have hm : (-jwt.DefaultLeeway).tmod 1000000000 = 0 := by decide
  unfold time.Time.Add
  simp only [hd, hm, add_zero]
  rw [if_neg (by omega), if_neg (by omega), addSec_in_range _ _ (by omega) (by omega)]
  rfl

theorem numericDate_eq (n : Int) :
    jwt.NumericDate.Time n = { sec := time.wrap64 (n + time.unixToInternal), nsec := 0 } := by
  unfold jwt.NumericDate.Time time.Unix
  rw [if_neg (by omega)]

/-- The instant of a date that `time.Unix` represents without overflow. -/
theorem numericDate_in_range (n : Int) (h1 : -9223372036854775808 ≤ n)
    (h2 : n < 9223372036854775808 - 62135596800) :
    jwt.NumericDate.Time n = { sec := n + 62135596800, nsec := 0 } := by
  rw [numericDate_eq]
  unfold time.unixToInternal
  rw [wrap64_id _ (by omega) (by omega)]

/-- The instant of a date on which the `int64` addition in `time.Unix` wraps around. -/
theorem numericDate_wrapped (n : Int) (h1 : 9223372036854775808 - 62135596800 ≤ n)
    (h2 : n ≤ 9223372036854775807) :
    jwt.NumericDate.Time n =
      { sec := n + 62135596800 - 18446744073709551616, nsec := 0 } := by
  rw [numericDate_eq]
  unfold time.unixToInternal time.wrap64
  congr 1
  omega

theorem beforeDate_add_leeway (now : time.Time) (h : nowInRange now) (d : Option Int) :
    jwt.beforeDate (now.Add jwt.DefaultLeeway) d = true ↔
      ∃ n, d = some n ∧ now.sec + 60 < (jwt.NumericDate.Time n).sec := by
  rw [add_leeway now h]
  obtain ⟨h1, _, _, _⟩ := h
  cases d with
  | none => simp [jwt.beforeDate]
  | some n =>
    simp only [jwt.beforeDate, time.Time.Before, numericDate_eq, decide_eq_true_eq,
      Option.some.injEq, exists_eq_left']
    constructor
    · rintro (h | ⟨_, h⟩)
      · exact h
      · omega
    · intro h
      exact Or.inl h

theorem afterDate_sub_leeway (now : time.Time) (h : nowInRange now) (d : Option Int) :
    jwt.afterDate (now.Add (-jwt.DefaultLeeway)) d = true ↔
      ∃ n, d = some n ∧ ((jwt.NumericDate.Time n).sec + 60 < now.sec ∨
        ((jwt.NumericDate.Time n).sec + 60 = now.sec ∧ 0 < now.nsec)) := by
  rw [sub_leeway now h]
  cases d with
  | none => simp [jwt.afterDate]
  | some n =>
    simp only [jwt.afterDate, time.Time.After, numericDate_eq, decide_eq_true_eq,
      Option.some.injEq, exists_eq_left']
    constructor
    · rintro (h | ⟨h, h'⟩)
      · exact Or.inl (by omega)
      · exact Or.inr ⟨by omega, h'⟩
    · rintro (h | ⟨h, h'⟩)
      · exact Or.inl (by omega)
      · exact Or.inr ⟨by omega, h'⟩

/-! ### Validation of claims against the expectations of `JWTPubKeyAuth` -/

/-- What `Claims.Validate` computes on the expectations built by `JWTPubKeyAuth`: the
audience check when an audience is configured, then the three time checks with the default
leeway when `now` is not the zero time. -/
theorem validate_expectedAt (c : jwt.Claims) (audience : String) (now : time.Time) :
    jwt.Claims.Validate c (expectedAt audience now) =
      if audience ≠ "" ∧ jwt.Audience.Contains c.Audience audience = false then
        some jwt.ErrInvalidAudience
      else if now.IsZero = false then
        if jwt.beforeDate (now.Add jwt.DefaultLeeway) c.NotBefore = true then
          some jwt.ErrNotValidYet
        else if jwt.afterDate (now.Add (-jwt.DefaultLeeway)) c.Expiry = true then
          some jwt.ErrExpired
        else if jwt.beforeDate (now.Add jwt.DefaultLeeway) c.IssuedAt = true then
          some jwt.ErrIssuedInTheFuture
        else none
      else none := by
  unfold jwt.Claims.Validate jwt.Claims.ValidateWithLeeway expectedAt
  by_cases ha : audience = ""
  · simp [ha]
  · simp [ha, jwt.audienceMissing]

theorem validate_expired (c : jwt.Claims) (audience : String) (now : time.Time) (exp : Int)
    (hr : nowInRange now) (hz : now.IsZero = false) (he : c.Expiry = some exp)
    (hlt : (jwt.NumericDate.Time exp).sec + 60 < now.sec ∨
      ((jwt.NumericDate.Time exp).sec + 60 = now.sec ∧ 0 < now.nsec)) :
    ∃ err, jwt.Claims.Validate c (expectedAt audience now) = some err := by
  rw [validate_expectedAt]
  have h1 : jwt.afterDate (now.Add (-jwt.DefaultLeeway)) c.Expiry = true :=
    (afterDate_sub_leeway now hr c.Expiry).mpr ⟨exp, he, hlt⟩
  rw [if_pos hz, if_pos h1]
  split_ifs <;> exact ⟨_, rfl⟩

theorem validate_not_yet (c : jwt.Claims) (audience : String) (now : time.Time) (nbf : Int)
    (hr : nowInRange now) (hz : now.IsZero = false) (he : c.NotBefore = some nbf)
    (hlt : now.sec + 60 < (jwt.NumericDate.Time nbf).sec) :
    ∃ err, jwt.Claims.Validate c (expectedAt audience now) = some err := by
  rw [validate_expectedAt]
  have h1 : jwt.beforeDate (now.Add jwt.DefaultLeeway) c.NotBefore = true :=
    (beforeDate_add_leeway now hr c.NotBefore).mpr ⟨nbf, he, hlt⟩
  rw [if_pos hz, if_pos h1]
  split_ifs <;> exact ⟨_, rfl⟩

theorem validate_in_window (c : jwt.Claims) (audience : String) (now : time.Time)
    (hr : nowInRange now)
    (ha : audience = "" ∨ jwt.Audience.Contains c.Audience audience = true)
    (hn : ∀ nbf, c.NotBefore = some nbf → (jwt.NumericDate.Time nbf).sec ≤ now.sec + 60)
    (he : ∀ exp, c.Expiry = some exp →
      now.sec < (jwt.NumericDate.Time exp).sec + 60 ∨
        (now.sec = (jwt.NumericDate.Time exp).sec + 60 ∧ now.nsec = 0))
    (hi : ∀ iat, c.IssuedAt = some iat → (jwt.NumericDate.Time iat).sec ≤ now.sec + 60) :
    jwt.Claims.Validate c (expectedAt audience now) = none := by
  rw [validate_expectedAt]
  have h0 : ¬ (audience ≠ "" ∧ jwt.Audience.Contains c.Audience audience = false) := by
    rintro ⟨h1, h2⟩
    rcases ha with ha | ha
    · exact h1 ha
    · rw [ha] at h2
      cases h2
  have h1 : ¬ jwt.beforeDate (now.Add jwt.DefaultLeeway) c.NotBefore = true := by
    rw [beforeDate_add_leeway now hr]
    rintro ⟨n, hx, hlt⟩
    have := hn n hx
    omega
  have h2 : ¬ jwt.afterDate (now.Add (-jwt.DefaultLeeway)) c.Expiry = true := by
    rw [afterDate_sub_leeway now hr]
    rintro ⟨n, hx, hlt⟩
    have := he n hx
    have := hr.1
    omega
  have h3 : ¬ jwt.beforeDate (now.Add jwt.DefaultLeeway) c.IssuedAt = true := by
    rw [beforeDate_add_leeway now hr]
    rintro ⟨n, hx, hlt⟩
    have := hi n hx
    omega
  rw [if_neg h0, if_neg h1, if_neg h2, if_neg h3]
  split_ifs <;> rfl

theorem validate_wrong_audience (c : jwt.Claims) (audience : String) (now : time.Time)
    (ha : audience ≠ "") (hc : jwt.Audience.Contains c.Audience audience = false) :
    jwt.Claims.Validate c (expectedAt audience now) = some jwt.ErrInvalidAudience := by
  rw [validate_expectedAt, if_pos ⟨ha, hc⟩]

theorem validate_ignores_audience (c : jwt.Claims) (audience : List String)
    (now : time.Time) :
    jwt.Claims.Validate { c with Audience := audience } (expectedAt "" now) =
      jwt.Claims.Validate c (expectedAt "" now) := by
  rw [validate_expectedAt, validate_expectedAt]
  simp

/-- The two dates of 2^63 - 1024 seconds: as a not-before it lies, after the wrap-around
of `time.Unix`, far in the past and the token is forwarded; as an expiry it makes the token
expired. -/
theorem jwt_dates_beyond_unix_range :
    (JWTPubKeyAuth sampleTables 8
        (joseWith (claimsOf "alice" [] none (some 9223372036854774784)))
        at1000 ⟨(), ""⟩ (@greetHandler Empty)
        (requestWith bearerAbc)).map (fun tr => (responses tr, nextCalls tr)) =
      some ([], [withSubject (requestWith bearerAbc) "alice"]) ∧
    (JWTPubKeyAuth sampleTables 8
        (joseWith (claimsOf "alice" [] (some 9223372036854774784) none))
        at1000 ⟨(), ""⟩ (@greetHandler Empty)
        (requestWith bearerAbc)).map (fun tr => (responses tr, nextCalls tr)) =
      some ([("Unauthorized: " ++ jwt.ErrExpired, 401)], []) := by
  constructor <;> decide

/-- Counterexample to C6: at verification time `now` = 1000 s, a correctly signed token
whose expiry claim equals `now` is forwarded to the handler, with no error response; so is
a token (expiring at 2000 s) whose not-before claim, 1001 s, is later than `now`. -/
theorem jwt_forwards_at_expiry_and_before_notBefore :
    (claimsOf "alice" [] (some 1000) none).Expiry = some 1000 ∧
    jwt.NumericDate.Time 1000 = at1000 ∧
    (JWTPubKeyAuth sampleTables 8 (joseWith (claimsOf "alice" [] (some 1000) none))
        at1000 ⟨(), ""⟩ (@greetHandler Empty)
        (requestWith bearerAbc)).map (fun tr => (responses tr, nextCalls tr)) =
      some ([], [withSubject (requestWith bearerAbc) "alice"]) ∧
    (claimsOf "alice" [] (some 2000) (some 1001)).NotBefore = some 1001 ∧
    (JWTPubKeyAuth sampleTables 8 (joseWith (claimsOf "alice" [] (some 2000) (some 1001)))
        at1000 ⟨(), ""⟩ (@greetHandler Empty)
        (requestWith bearerAbc)).map (fun tr => (responses tr, nextCalls tr)) =
      some ([], [withSubject (requestWith bearerAbc) "alice"]) := by
  refine ⟨rfl, rfl, ?_, rfl, ?_⟩ <;> decide

/-- C6, amended: under `JWTPubKeyAuth`, with `claims.Validate` of go-jose and its default leeway
of one minute, for a correctly signed token and a verification time `now` that is in range
and not the zero time: a token is rejected when `now` is more than one minute after the
instant of its expiry, and when the instant of its not-before is more than one minute
after `now`, in both cases with status 401 and without invoking the wrapped handler. A
token whose audience is accepted, for which `now` is at most one minute after the instant
of its expiry, and whose not-before and issued-at instants are at most one minute after
`now`, is forwarded: in particular an expiry equal to `now`, or a not-before up to one
minute later than `now`, does not reject it. The instant of a date of `n` seconds is
`time.Unix(n, 0)`: `n` seconds after the Unix epoch when `n < 2^63 - 62135596800`, and
2^64 seconds before that for larger `n`, where the `int64` addition wraps around. -/
theorem jwt_time_window_has_leeway {ρ τ κ : Type} (T : unicode.CaseTables) (fuel : Nat)
    (lib : JoseLib τ κ) (now : time.Time) (cfg : JWTPubKeyConfig κ) (next : http.Request → ρ)
    (r : http.Request) (token : τ) (claims : jwt.Claims) (hf : 8 ≤ fuel)
    (ht : bearerToken (r.Header.Get "Authorization") ≠ [])
    (hV : lib.Validate = jwt.Claims.Validate)
    (hp : lib.ParseSigned (bearerToken (r.Header.Get "Authorization")) = .ok token)
    (hc : lib.Claims token cfg.pubKey = .ok claims)
    (hr : nowInRange now) :
    ∃ tr, JWTPubKeyAuth T fuel lib now cfg next r = some tr ∧
      (now.IsZero = false → ∀ exp, claims.Expiry = some exp →
        ((jwt.NumericDate.Time exp).sec + 60 < now.sec ∨
          ((jwt.NumericDate.Time exp).sec + 60 = now.sec ∧ 0 < now.nsec)) →
        (responses tr).map Prod.snd = [401] ∧ nextCalls tr = []) ∧
      (now.IsZero = false → ∀ nbf, claims.NotBefore = some nbf →
        now.sec + 60 < (jwt.NumericDate.Time nbf).sec →
        (responses tr).map Prod.snd = [401] ∧ nextCalls tr = []) ∧
      ((cfg.audience = "" ∨ jwt.Audience.Contains claims.Audience cfg.audience = true) →
        (∀ nbf, claims.NotBefore = some nbf →
          (jwt.NumericDate.Time nbf).sec ≤ now.sec + 60) →
        (∀ exp, claims.Expiry = some exp →
          now.sec < (jwt.NumericDate.Time exp).sec + 60 ∨
            (now.sec = (jwt.NumericDate.Time exp).sec + 60 ∧ now.nsec = 0)) →
        (∀ iat, claims.IssuedAt = some iat →
          (jwt.NumericDate.Time iat).sec ≤ now.sec + 60) →
        nextCalls tr = [withSubject r claims.Subject] ∧ responses tr = []) ∧
      (∀ n : Int, -9223372036854775808 ≤ n → n < 9223372036854775808 - 62135596800 →
        jwt.NumericDate.Time n = { sec := n + 62135596800, nsec := 0 }) ∧
      (∀ n : Int, 9223372036854775808 - 62135596800 ≤ n → n ≤ 9223372036854775807 →
        jwt.NumericDate.Time n =
          { sec := n + 62135596800 - 18446744073709551616, nsec := 0 }) := by
  cases hv : lib.Validate claims (expectedAt cfg.audience now) with
  | some e =>
    refine ⟨_, JWTPubKeyAuth_validate_error T fuel lib now cfg next r hf ht token claims e hp
      hc hv, ?_, ?_, ?_, numericDate_in_range, numericDate_wrapped⟩
    · intro _ _ _ _
      exact ⟨rfl, rfl⟩
    · intro _ _ _ _
      exact ⟨rfl, rfl⟩
    · intro ha hn he hi
      rw [hV, validate_in_window claims cfg.audience now hr ha hn he hi] at hv
      cases hv
  | none =>
    refine ⟨_, JWTPubKeyAuth_valid T fuel lib now cfg next r hf ht token claims hp hc hv,
      ?_, ?_, ?_, numericDate_in_range, numericDate_wrapped⟩
    · intro hz exp he hlt
      obtain ⟨err, h⟩ := validate_expired claims cfg.audience now exp hr hz he hlt
      rw [hV, h] at hv
      cases hv
    · intro hz nbf he hlt
      obtain ⟨err, h⟩ := validate_not_yet claims cfg.audience now nbf hr hz he hlt
      rw [hV, h] at hv
      cases hv
    · intro _ _ _ _
      exact ⟨rfl, rfl⟩

/-- Witness of C6, amended: a token that expired at 1000 s, checked at 1061 s. -/
theorem jwt_time_window_has_leeway_witness :
    8 ≤ 8 ∧ bearerToken ((requestWith bearerAbc).Header.Get "Authorization") ≠ [] ∧
    nowInRange at1061 ∧
    ∃ tr, JWTPubKeyAuth sampleTables 8 (joseWith (claimsOf "alice" [] (some 1000) none))
        at1061 ⟨(), ""⟩ (@greetHandler Empty) (requestWith bearerAbc) = some tr ∧
      (responses tr).map Prod.snd = [401] ∧ nextCalls tr = [] :=
  ⟨by decide, by decide, by unfold nowInRange; decide,
    by
      obtain ⟨tr, h1, h2, _⟩ := jwt_time_window_has_leeway sampleTables 8
        (joseWith (claimsOf "alice" [] (some 1000) none)) at1061 ⟨(), ""⟩
        (@greetHandler Empty) (requestWith bearerAbc) () (claimsOf "alice" [] (some 1000) none)
        (by decide) (by decide) rfl rfl rfl (by unfold nowInRange; decide)
      exact ⟨tr, h1, h2 (by decide) 1000 rfl (by decide)⟩⟩

/-- C7: under `JWTPubKeyAuth` with `claims.Validate` of go-jose, the audience is checked
exactly when one is configured. If `cfg.audience` is empty, the expectations passed to
`Validate` have no audience, and two correctly signed tokens whose claims differ only in
the audience get the same responses and are both forwarded or both not. If `cfg.audience`
is not empty, the expected audience list is `[cfg.audience]`, and a correctly signed token
whose audience does not contain `cfg.audience` is rejected with status 401, the handler
not being invoked. -/
theorem jwt_audience_checked_iff_configured {ρ τ κ : Type} (T : unicode.CaseTables)
    (fuel : Nat) (lib : JoseLib τ κ) (now : time.Time) (cfg : JWTPubKeyConfig κ)
    (next : http.Request → ρ) (hf : 8 ≤ fuel) (hV : lib.Validate = jwt.Claims.Validate) :
    (cfg.audience = "" →
      (expectedAt cfg.audience now).Audience = [] ∧
      ∀ (r₁ r₂ : http.Request) (t₁ t₂ : τ) (c₁ c₂ : jwt.Claims),
        bearerToken (r₁.Header.Get "Authorization") ≠ [] →
        bearerToken (r₂.Header.Get "Authorization") ≠ [] →
        lib.ParseSigned (bearerToken (r₁.Header.Get "Authorization")) = .ok t₁ →
        lib.ParseSigned (bearerToken (r₂.Header.Get "Authorization")) = .ok t₂ →
        lib.Claims t₁ cfg.pubKey = .ok c₁ →
        lib.Claims t₂ cfg.pubKey = .ok c₂ →
        c₂ = { c₁ with Audience := c₂.Audience } →
        ∃ tr₁ tr₂,
          JWTPubKeyAuth T fuel lib now cfg next r₁ = some tr₁ ∧
          JWTPubKeyAuth T fuel lib now cfg next r₂ = some tr₂ ∧
          (∀ c e, Call.claimsValidate c e ∈ backendCalls tr₁ ++ backendCalls tr₂ →
            e.Audience = []) ∧
          responses tr₁ = responses tr₂ ∧
          (nextCalls tr₁ = [] ↔ nextCalls tr₂ = [])) ∧
    (cfg.audience ≠ "" →
      (expectedAt cfg.audience now).Audience = [cfg.audience] ∧
      ∀ (r : http.Request) (t : τ) (c : jwt.Claims),
        bearerToken (r.Header.Get "Authorization") ≠ [] →
        lib.ParseSigned (bearerToken (r.Header.Get "Authorization")) = .ok t →
        lib.Claims t cfg.pubKey = .ok c →
        jwt.Audience.Contains c.Audience cfg.audience = false →
        ∃ tr, JWTPubKeyAuth T fuel lib now cfg next r = some tr ∧
          backendCalls tr = [.parseSigned (bearerToken (r.Header.Get "Authorization")),
            .tokenClaims, .claimsValidate c (expectedAt cfg.audience now)] ∧
          (responses tr).map Prod.snd = [401] ∧
          responses tr = [("Unauthorized: " ++ jwt.ErrInvalidAudience, 401)] ∧
          nextCalls tr = []) := by
  constructor
  · intro ha
    have hexp : (expectedAt cfg.audience now).Audience = [] := by
      rw [ha]; rfl
    refine ⟨hexp, ?_⟩
    intro r₁ r₂ t₁ t₂ c₁ c₂ ht₁ ht₂ hp₁ hp₂ hc₁ hc₂ hdiff
    have hsame : lib.Validate c₂ (expectedAt cfg.audience now) =
        lib.Validate c₁ (expectedAt cfg.audience now) := by
      rw [hV, hdiff, ha]
      exact validate_ignores_audience c₁ c₂.Audience now
    cases hv : lib.Validate c₁ (expectedAt cfg.audience now) with
    | some e =>
      refine ⟨_, _,
        JWTPubKeyAuth_validate_error T fuel lib now cfg next r₁ hf ht₁ t₁ c₁ e hp₁ hc₁ hv,
        JWTPubKeyAuth_validate_error T fuel lib now cfg next r₂ hf ht₂ t₂ c₂ e hp₂ hc₂
          (hsame.trans hv), ?_, rfl, ?_⟩
      · intro c e hm
        simp [backendCalls] at hm
        rcases hm with ⟨_, h⟩ | ⟨_, h⟩ <;> (rw [h]; exact hexp)
      · exact ⟨fun _ => rfl, fun _ => rfl⟩
    | none =>
      refine ⟨_, _,
        JWTPubKeyAuth_valid T fuel lib now cfg next r₁ hf ht₁ t₁ c₁ hp₁ hc₁ hv,
        JWTPubKeyAuth_valid T fuel lib now cfg next r₂ hf ht₂ t₂ c₂ hp₂ hc₂
          (hsame.trans hv), ?_, rfl, ?_⟩
      · intro c e hm
        simp [backendCalls] at hm
        rcases hm with ⟨_, h⟩ | ⟨_, h⟩ <;> (rw [h]; exact hexp)
      · constructor
        · intro h
          cases h
        · intro h
          cases h
  · intro ha
    have hexp : (expectedAt cfg.audience now).Audience = [cfg.audience] := by
      unfold expectedAt
      simp only []
      rw [if_pos ha]
    refine ⟨hexp, ?_⟩
    intro r t c ht hp hc hno
    have hv : lib.Validate c (expectedAt cfg.audience now) = some jwt.ErrInvalidAudience := by
      rw [hV]
      exact validate_wrong_audience c cfg.audience now ha hno
    exact ⟨_, JWTPubKeyAuth_validate_error T fuel lib now cfg next r hf ht t c _ hp hc hv,
      rfl, rfl, rfl, rfl⟩

/-- Witness of C7: `cfg.audience` is `"svc-a"` and the token's audience is `["svc-b"]`. -/
theorem jwt_audience_checked_iff_configured_witness :
    8 ≤ 8 ∧ (joseWith (claimsOf "alice" ["svc-b"] none none)).Validate = jwt.Claims.Validate ∧
    ∃ tr, JWTPubKeyAuth sampleTables 8 (joseWith (claimsOf "alice" ["svc-b"] none none)) at1000
        ⟨(), "svc-a"⟩ (@greetHandler Empty) (requestWith bearerAbc) = some tr ∧
      responses tr = [("Unauthorized: " ++ jwt.ErrInvalidAudience, 401)] ∧ nextCalls tr = [] :=
  ⟨by decide, rfl,
    by
      obtain ⟨tr, h1, _, _, h4, h5⟩ :=
        ((jwt_audience_checked_iff_configured sampleTables 8
          (joseWith (claimsOf "alice" ["svc-b"] none none)) at1000 ⟨(), "svc-a"⟩
          (@greetHandler Empty) (by decide) rfl).2 (by decide)).2
          (requestWith bearerAbc) () (claimsOf "alice" ["svc-b"] none none)
          (by decide) rfl rfl (by decide)
      exact ⟨tr, h1, h4, h5⟩⟩

/-- C10 fails on the code: when the file can be read and its content neither begins with
`"-----BEGIN "` nor contains `"\n-----BEGIN "`, `pem.Decode` returns a `nil` block and
`loadPubKey` ends in a run-time panic instead of returning an error. -/
theorem loadPubKey_panics_without_pem_block {κ : Type} (lib : KeyLib κ) (file : String)
    (content : GoString) (hr : lib.ReadFile file = .ok content)
    (h1 : pem.pemStartTail.isPrefixOf content = false) (h2 : ¬ pem.pemStart <:+: content) :
    loadPubKey lib file = .panic "invalid memory address or nil pointer dereference" := by
  unfold loadPubKey pem.Decode
  rw [hr]
  simp [h1, h2]

/-- Witness of the failure of C10: an empty key file. -/
theorem loadPubKey_panics_without_pem_block_witness :
    (emptyFileLib.ReadFile "sa.pub" = .ok []) ∧
    pem.pemStartTail.isPrefixOf ([] : GoString) = false ∧
    ¬ pem.pemStart <:+: ([] : GoString) ∧
    loadPubKey emptyFileLib "sa.pub" =
      .panic "invalid memory address or nil pointer dereference" :=
  ⟨rfl, by decide, by decide,
    loadPubKey_panics_without_pem_block emptyFileLib "sa.pub" [] rfl (by decide) (by decide)⟩

end K8sS2SAuth
